import Mathlib

/-!
Shallow embedding of the `Crates` rail-network code
(`src/track_shape.rs`, `src/minivec.rs`, `src/track.rs`).

Modelling conventions:
* `f32` values are modelled as real numbers (`ℝ`);
* `glam::Vec2` is a pair of reals; `Vec2::perp` is the counterclockwise
  perpendicular `(-y, x)`, `Vec2::to_angle` is `atan2(y, x)` modelled by
  `Complex.arg`, `Vec2::from_angle` is `(cos θ, sin θ)`;
* Rust `f32::signum` (which is never `0`) is `rsignum`;
* panicking code paths (`unwrap`, slice indexing, `gen_range` on an empty
  range) are modelled by `Option`-valued functions returning `none`;
* `rand::thread_rng().gen_range(0..len)` is modelled by an explicit oracle
  `rng : ℕ → ℕ` reduced modulo `len`, quantified over in the theorems.
-/

noncomputable section

/-- Model of `glam::Vec2` with `f32` components modelled as `ℝ`. -/
@[ext]
structure Vec2 where
  x : ℝ
  y : ℝ

namespace Vec2

instance : Add Vec2 := ⟨fun a b => ⟨a.x + b.x, a.y + b.y⟩⟩

instance : Sub Vec2 := ⟨fun a b => ⟨a.x - b.x, a.y - b.y⟩⟩

instance : Neg Vec2 := ⟨fun a => ⟨-a.x, -a.y⟩⟩

instance : SMul ℝ Vec2 := ⟨fun r v => ⟨r * v.x, r * v.y⟩⟩

@[simp] theorem add_x (a b : Vec2) : (a + b).x = a.x + b.x := rfl

@[simp] theorem add_y (a b : Vec2) : (a + b).y = a.y + b.y := rfl

@[simp] theorem sub_x (a b : Vec2) : (a - b).x = a.x - b.x := rfl

@[simp] theorem sub_y (a b : Vec2) : (a - b).y = a.y - b.y := rfl

@[simp] theorem neg_x (a : Vec2) : (-a).x = -a.x := rfl

@[simp] theorem neg_y (a : Vec2) : (-a).y = -a.y := rfl

@[simp] theorem smul_x (r : ℝ) (a : Vec2) : (r • a).x = r * a.x := rfl

@[simp] theorem smul_y (r : ℝ) (a : Vec2) : (r • a).y = r * a.y := rfl

/-- `Vec2::dot`. -/
def dot (a b : Vec2) : ℝ := a.x * b.x + a.y * b.y

/-- `Vec2::perp`: counterclockwise perpendicular. -/
def perp (v : Vec2) : Vec2 := ⟨-v.y, v.x⟩

/-- `Vec2::length`. -/
def length (v : Vec2) : ℝ := Real.sqrt (v.x ^ 2 + v.y ^ 2)

/-- `Vec2::distance`. -/
def distance (a b : Vec2) : ℝ := (a - b).length

/-- `Vec2::normalize` (division of a zero vector is left at the junk value
`0`, a state no caller relies on). -/
def normalize (v : Vec2) : Vec2 := v.length⁻¹ • v

/-- `Vec2::to_angle`, i.e. `atan2(y, x)`, modelled by `Complex.arg`. -/
def to_angle (v : Vec2) : ℝ := Complex.arg ⟨v.x, v.y⟩

/-- `Vec2::from_angle`. -/
def from_angle (θ : ℝ) : Vec2 := ⟨Real.cos θ, Real.sin θ⟩

end Vec2

/-- Model of Rust `f32::signum`, which is `1.0` on `+0.0` and never `0`. -/
def rsignum (x : ℝ) : ℝ := if x < 0 then -1 else 1

/-- Model of Rust `f32::rem_euclid` (the code only uses a positive modulus). -/
def remEuclid (a b : ℝ) : ℝ := a - b * ⌊a / b⌋

/-- Truncation toward zero, as Rust's float `%` uses. -/
def rtrunc (x : ℝ) : ℤ := if 0 ≤ x then ⌊x⌋ else ⌈x⌉

/-- Model of Rust `%` on floats: remainder with the quotient truncated
toward zero. -/
def frem (a b : ℝ) : ℝ := a - b * rtrunc (a / b)

theorem rsignum_mul_abs (x : ℝ) : |x| * rsignum x = x := by
  unfold rsignum
  split
  · rw [abs_of_neg (by assumption)]; ring
  · rw [abs_of_nonneg (le_of_not_lt (by assumption))]; ring

/-- `std::f32::consts::TAU`. -/
def TAU : ℝ := 2 * Real.pi

/-- Model of `TrackShape` (`src/track_shape.rs`). -/
inductive TrackShape where
  | line (source : Vec2) (direction : Vec2) (length : ℝ)
  | arc (start_angle : ℝ) (angle_diff : ℝ) (radius : ℝ) (center : Vec2)

namespace TrackShape

/-- `TrackShape::get_length`. -/
def get_length : TrackShape → ℝ
  | line _ _ length => length
  | arc _ angle_diff radius _ => |angle_diff * radius|

/-- `TrackShape::get_transform_at_distance`: `(position, heading)`. -/
def get_transform_at_distance : TrackShape → ℝ → Vec2 × ℝ
  | line source direction _, distance =>
      (source + distance • direction, direction.to_angle)
  | arc start_angle angle_diff radius center, distance =>
      let angle := distance * rsignum angle_diff / radius + start_angle
      (center + radius • Vec2.from_angle angle,
       angle + Real.pi / 2 * rsignum angle_diff)

/-- `TrackShape::reverse`. -/
def reverse : TrackShape → TrackShape
  | line source direction length =>
      line (source + length • direction) (-direction) length
  | arc start_angle angle_diff radius center =>
      arc (start_angle + angle_diff) (-angle_diff) radius center

/-- `TrackShape::subshape`. -/
def subshape : TrackShape → ℝ → ℝ → TrackShape
  | line source direction _, lo, hi =>
      line (source + lo • direction) direction (hi - lo)
  | arc start_angle angle_diff radius center, lo, hi =>
      arc (start_angle + lo / radius * rsignum angle_diff)
          ((hi - lo) / radius * rsignum angle_diff) radius center

/-- `TrackShape::from_source_direction_dest`. -/
def from_source_direction_dest (source source_direction destination : Vec2) :
    TrackShape :=
  let direction_to_center := source_direction.perp
  let total_distance := destination - source
  let y := total_distance.dot direction_to_center
  let x := total_distance.dot source_direction
  if |y| < 0.001 then
    line source source_direction total_distance.length
  else
    let signed_radius := (x * x + y * y) / (2 * y)
    let circle_center := source + signed_radius • direction_to_center
    let initial_angle := (source - circle_center).to_angle
    let final_angle := (destination - circle_center).to_angle
    let angle_delta :=
      if signed_radius < 0 then
        remEuclid (final_angle - initial_angle) TAU - TAU
      else
        remEuclid (final_angle - initial_angle) TAU
    arc initial_angle angle_delta |signed_radius| circle_center

/-- Data-model well-formedness: every arc the program constructs stores
`radius = |signed_radius|` with `|y| ≥ 0.001`, hence a positive radius
(the spec's "unsigned radius"). -/
def wf : TrackShape → Prop
  | line _ _ _ => True
  | arc _ _ radius _ => 0 < radius

theorem reverse_reverse (s : TrackShape) : s.reverse.reverse = s := by
  cases s with
  | line source direction length =>
      simp only [reverse]
      congr 1 <;> ext <;> simp
  | arc start_angle angle_diff radius center =>
      simp only [reverse, neg_neg]
      congr 1
      ring

theorem subshape_zero_length {s : TrackShape} (h : s.wf) :
    s.subshape 0 s.get_length = s := by
  cases s with
  | line source direction length =>
      simp only [subshape, get_length, sub_zero]
      congr 1
      ext <;> simp
  | arc start_angle angle_diff radius center =>
      have hr : (0 : ℝ) < radius := h
      simp only [subshape, get_length, sub_zero, zero_div, zero_mul, add_zero]
      congr 1
      rw [abs_mul, abs_of_pos hr, mul_div_assoc, div_self hr.ne', mul_one,
        rsignum_mul_abs]

end TrackShape

/-- C7: for every `TrackShape` `s` and distance `d`, the double reversal
`s.reverse.reverse` has the same position and heading as `s` at `d`. -/
theorem C7_reverse_reverse_pointwise (s : TrackShape) (d : ℝ) :
    (s.reverse.reverse).get_transform_at_distance d =
      s.get_transform_at_distance d := by
  rw [TrackShape.reverse_reverse]

/-- C8: for every well-formed `TrackShape` `s` (constructed arcs have a
positive radius), the full-range restriction `s.subshape 0 s.get_length`
yields the same position and heading as `s` at every distance `d`. -/
theorem C8_subshape_full_range_pointwise (s : TrackShape) (h : s.wf) (d : ℝ) :
    (s.subshape 0 s.get_length).get_transform_at_distance d =
      s.get_transform_at_distance d := by
  rw [TrackShape.subshape_zero_length h]

/-- Model of `Minivec<SIZE, T>` (`src/minivec.rs`): a statically bounded
append-only list; `length` backs `len()` and `inner` is the backing array. -/
structure Minivec (SIZE : ℕ) (T : Type) where
  length : ℕ
  inner : Fin SIZE → T

namespace Minivec

/-- `Minivec::new`. -/
def new {SIZE : ℕ} {T : Type} [Inhabited T] : Minivec SIZE T :=
  { length := 0, inner := fun _ => default }

/-- `Minivec::push`: returns the updated state together with the
`Result<(), T>` value (`Except.error item` models `Err(item)`, leaving the
state untouched). -/
def push {SIZE : ℕ} {T : Type} (v : Minivec SIZE T) (item : T) :
    Minivec SIZE T × Except T Unit :=
  if h : SIZE ≤ v.length then
    (v, Except.error item)
  else
    ({ length := v.length + 1,
       inner := Function.update v.inner ⟨v.length, Nat.lt_of_not_le h⟩ item },
     Except.ok ())

/-- `Index<usize> for Minivec` (`none` models the bounds-check panic, and an
in-bounds slot beyond the backing array's capacity). -/
def get {SIZE : ℕ} {T : Type} (v : Minivec SIZE T) (i : ℕ) : Option T :=
  if i < v.length then
    if h2 : i < SIZE then some (v.inner ⟨i, h2⟩) else none
  else none

end Minivec

/-- C10: `Minivec::push` is atomic on failure.  When the length has reached
the capacity `SIZE` it returns `Err(item)` and leaves the state (length and
every stored element) unchanged; when the length is below `SIZE` it writes
`item` at position `length`, increments `length`, and returns `Ok(())`. -/
theorem C10_minivec_push_atomic {SIZE : ℕ} {T : Type}
    (v : Minivec SIZE T) (item : T) :
    (SIZE ≤ v.length → v.push item = (v, Except.error item)) ∧
    (∀ h : v.length < SIZE,
      (v.push item).1.length = v.length + 1 ∧
      (v.push item).1.inner ⟨v.length, h⟩ = item ∧
      (∀ i : Fin SIZE, (i : ℕ) ≠ v.length → (v.push item).1.inner i = v.inner i) ∧
      (v.push item).2 = Except.ok ()) := by
  constructor
  · intro hfull
    simp [Minivec.push, hfull]
  · intro h
    have hnot : ¬ SIZE ≤ v.length := not_le.mpr h
    refine ⟨?_, ?_, ?_, ?_⟩
    · simp [Minivec.push, hnot]
    · simp [Minivec.push, hnot]
    · intro i hi
      simp only [Minivec.push, hnot, dif_neg, not_false_iff]
      exact Function.update_noteq (fun hc => hi (by simpa using congrArg Fin.val hc)) _ _
    · simp [Minivec.push, hnot]

/-- Witness for C10 at `SIZE = 2`: a full vector rejects the push unchanged,
a vector of length 1 accepts it, writing position 1 and reaching length 2. -/
theorem C10_minivec_push_witness :
    (Minivec.push (Minivec.mk 2 (fun _ => 5) : Minivec 2 ℕ) 9 =
        (Minivec.mk 2 (fun _ => 5), Except.error 9)) ∧
    ((Minivec.push (Minivec.mk 1 (fun _ => 5) : Minivec 2 ℕ) 9).1.length = 1 + 1) ∧
    ((Minivec.push (Minivec.mk 1 (fun _ => 5) : Minivec 2 ℕ) 9).1.inner
        ⟨1, one_lt_two⟩ = 9) := by
  refine ⟨?_, ?_, ?_⟩
  · exact (C10_minivec_push_atomic (Minivec.mk 2 (fun _ => 5)) 9).1 (by norm_num)
  · exact ((C10_minivec_push_atomic (Minivec.mk 1 (fun _ => 5)) 9).2 (by norm_num)).1
  · exact ((C10_minivec_push_atomic (Minivec.mk 1 (fun _ => 5)) 9).2 (by norm_num)).2.1

/-- Model of `Junction` (`src/track.rs`); ids are bare `ℕ` indices.  The
source's field spellings (`enterances`, `destiation`) are kept. -/
structure Junction where
  id : ℕ
  position : Vec2
  enterances : Minivec 2 ℕ
  exits : Minivec 2 ℕ
  direction : Option Vec2

/-- Model of `Track`; the `VecDeque<TrainId>` queue is a `List ℕ` with
`push_back` appending at the right. -/
structure Track where
  id : ℕ
  source : ℕ
  destiation : ℕ
  trains : List ℕ
  length : ℝ
  shape : TrackShape

/-- Model of `Train`. -/
structure Train where
  id : ℕ
  track : ℕ
  distance : ℝ

/-- Model of `Station`. -/
structure Station where
  position : Vec2
  length : ℝ
  track : ℕ
  angle : ℝ

/-- Model of `Network`. -/
structure Network where
  tracks : List Track
  junctions : List Junction
  trains : List Train
  stations : List Station

/-- `Network::add_junction`. -/
def add_junction (net : Network) (position : Vec2) : Network × ℕ :=
  let junction_id := net.junctions.length
  ({ net with
      junctions := net.junctions ++
        [{ id := junction_id, position := position,
           enterances := Minivec.new, exits := Minivec.new, direction := none }] },
   junction_id)

/-- Direct assignment `self.junctions[j].direction = Some(d)`.  Every call
site indexes a junction that exists, so the out-of-range case (a panic in
Rust) is a no-op that is never reached. -/
def set_junction_direction (net : Network) (j : ℕ) (d : Vec2) : Network :=
  match net.junctions[j]? with
  | none => net
  | some jn =>
      { net with junctions := net.junctions.set j { jn with direction := some d } }

/-- `self.junctions[j].direction.get_or_insert(d)` (the value itself is
unused by the callers, so only the state effect is modelled). -/
def get_or_insert_direction (net : Network) (j : ℕ) (d : Vec2) : Network :=
  match net.junctions[j]? with
  | none => net
  | some jn =>
      match jn.direction with
      | some _ => net
      | none =>
          { net with
              junctions := net.junctions.set j { jn with direction := some d } }

/-- `Network::add_track_segment`: allocates the track, registers it as an
exit of the source and an entrance of the destination.  A failed
bounded-capacity push is `unwrap`ped in the source, so it is a panic,
modelled by `none`; so is an out-of-range junction index. -/
def add_track_segment (net : Network) (source_id destination_id : ℕ)
    (shape : TrackShape) : Option (Network × ℕ) :=
  match net.junctions[source_id]? with
  | none => none
  | some jsrc =>
      match jsrc.exits.push net.tracks.length with
      | (_, Except.error _) => none
      | (exits2, Except.ok _) =>
          match (net.junctions.set source_id
              { jsrc with exits := exits2 })[destination_id]? with
          | none => none
          | some jdst =>
              match jdst.enterances.push net.tracks.length with
              | (_, Except.error _) => none
              | (ent2, Except.ok _) =>
                  some
                    ({ tracks := net.tracks ++
                        [{ id := net.tracks.length, source := source_id,
                           destiation := destination_id, trains := [],
                           length := shape.get_length, shape := shape }],
                       junctions :=
                         (net.junctions.set source_id
                           { jsrc with exits := exits2 }).set destination_id
                           { jdst with enterances := ent2 },
                       trains := net.trains, stations := net.stations },
                     net.tracks.length)

theorem minivec_push_full {SIZE : ℕ} {T : Type} (v : Minivec SIZE T) (item : T)
    (h : SIZE ≤ v.length) : v.push item = (v, Except.error item) := by
  simp [Minivec.push, h]

theorem minivec_push_ok {SIZE : ℕ} {T : Type} (v : Minivec SIZE T) (item : T)
    (h : v.length < SIZE) :
    v.push item =
      ({ length := v.length + 1,
         inner := Function.update v.inner ⟨v.length, h⟩ item },
       Except.ok ()) := by
  simp [Minivec.push, not_le.mpr h]

/-- C6: registering a track on a junction whose exit list is already at
capacity 2 — or whose entrance list is, once the source's exit push went
through — makes `add_track_segment` abort (the `unwrap` of the failed
bounded push, a panic in Rust, modelled by `none`); the edge is never
silently dropped with a normal return. -/
theorem C6_add_track_segment_overflow_fatal :
    (∀ (net : Network) (s d : ℕ) (shape : TrackShape) (jsrc : Junction),
      net.junctions[s]? = some jsrc → 2 ≤ jsrc.exits.length →
      add_track_segment net s d shape = none) ∧
    (∀ (net : Network) (s d : ℕ) (shape : TrackShape) (jsrc jdst : Junction),
      net.junctions[s]? = some jsrc → jsrc.exits.length < 2 →
      net.junctions[d]? = some jdst → 2 ≤ jdst.enterances.length →
      add_track_segment net s d shape = none) := by
  constructor
  · intro net s d shape jsrc hs hfull
    simp [add_track_segment, hs, minivec_push_full _ _ hfull]
  · intro net s d shape jsrc jdst hs hsok hd hfull
    have hs' : s < net.junctions.length := (List.getElem?_eq_some_iff.mp hs).1
    simp only [add_track_segment, hs, minivec_push_ok _ _ hsok]
    by_cases hsd : d = s
    · subst hsd
      have : some jdst = some jsrc := by rw [← hs, ← hd]
      have hjj : jdst = jsrc := by injection this
      simp [List.getElem?_set_self hs',
        minivec_push_full _ _ (hjj ▸ hfull : (2 : ℕ) ≤ jsrc.enterances.length)]
    · simp [List.getElem?_set_ne (fun hc => hsd hc.symm), hd,
        minivec_push_full _ _ hfull]

/-- Witness for C6: a junction with two exits already registered rejects a
third (first conjunct), and a full entrance list likewise aborts (second
conjunct), on concrete two-junction networks. -/
theorem C6_add_track_segment_overflow_witness :
    add_track_segment
      { tracks := [], trains := [], stations := [],
        junctions :=
          [{ id := 0, position := ⟨0, 0⟩, enterances := Minivec.new,
             exits := Minivec.mk 2 (fun _ => 0), direction := none },
           { id := 1, position := ⟨1, 0⟩, enterances := Minivec.new,
             exits := Minivec.new, direction := none }] }
      0 1 (TrackShape.line ⟨0, 0⟩ ⟨1, 0⟩ 1) = none ∧
    add_track_segment
      { tracks := [], trains := [], stations := [],
        junctions :=
          [{ id := 0, position := ⟨0, 0⟩, enterances := Minivec.new,
             exits := Minivec.new, direction := none },
           { id := 1, position := ⟨1, 0⟩,
             enterances := Minivec.mk 2 (fun _ => 0),
             exits := Minivec.new, direction := none }] }
      0 1 (TrackShape.line ⟨0, 0⟩ ⟨1, 0⟩ 1) = none := by
  constructor
  · exact C6_add_track_segment_overflow_fatal.1 _ 0 1 _ _ rfl (by norm_num)
  · exact C6_add_track_segment_overflow_fatal.2 _ 0 1 _ _ _ rfl
      (by simp [Minivec.new]) rfl (by norm_num)

/-- Witness for C8 at the concrete arc `arc 0 1 1 (0,0)` and distance `2`. -/
theorem C8_subshape_full_range_witness :
    ((TrackShape.arc 0 1 1 ⟨0, 0⟩).subshape 0
        (TrackShape.arc 0 1 1 ⟨0, 0⟩).get_length).get_transform_at_distance 2 =
      (TrackShape.arc 0 1 1 ⟨0, 0⟩).get_transform_at_distance 2 :=
  C8_subshape_full_range_pointwise (TrackShape.arc 0 1 1 ⟨0, 0⟩)
    (by simp [TrackShape.wf]) 2

theorem rsignum_of_nonneg {x : ℝ} (h : 0 ≤ x) : rsignum x = 1 := if_neg (not_lt.mpr h)

theorem rsignum_of_neg {x : ℝ} (h : x < 0) : rsignum x = -1 := if_pos h

theorem arg_mk_zero_neg_five : Complex.arg ⟨0, -5⟩ = -(Real.pi / 2) := by
  have h : (⟨0, -5⟩ : ℂ) = ((5 : ℝ) : ℂ) * -Complex.I := by
    apply Complex.ext <;> simp
  rw [h, Complex.arg_real_mul _ (by norm_num : (0:ℝ) < 5), Complex.arg_neg_I]

theorem arg_mk_zero_five : Complex.arg ⟨0, 5⟩ = Real.pi / 2 := by
  have h : (⟨0, 5⟩ : ℂ) = ((5 : ℝ) : ℂ) * Complex.I := by
    apply Complex.ext <;> simp
  rw [h, Complex.arg_real_mul _ (by norm_num : (0:ℝ) < 5), Complex.arg_I]

theorem remEuclid_pi_TAU : remEuclid Real.pi TAU = Real.pi := by
  unfold remEuclid TAU
  have h : Real.pi / (2 * Real.pi) = 1 / 2 := by
    field_simp [Real.pi_ne_zero]
    ring
  rw [h]
  norm_num

theorem fsdd_scenario :
    TrackShape.from_source_direction_dest ⟨0, 0⟩ ⟨1, 0⟩ ⟨0, 10⟩ =
      TrackShape.arc (-(Real.pi / 2)) Real.pi 5 ⟨0, 5⟩ := by
  unfold TrackShape.from_source_direction_dest
  simp only [Vec2.perp, Vec2.dot, Vec2.sub_x, Vec2.sub_y]
  norm_num
  have hc : ({ x := 0, y := 0 } : Vec2) + (5 : ℝ) • ({ x := 0, y := 1 } : Vec2) = ⟨0, 5⟩ := by
    ext <;> simp
  rw [hc]
  have e1 : ((⟨0, 0⟩ : Vec2) - ⟨0, 5⟩) = (⟨0, -5⟩ : Vec2) := by ext <;> norm_num
  have e2 : ((⟨0, 10⟩ : Vec2) - ⟨0, 5⟩) = (⟨0, 5⟩ : Vec2) := by ext <;> norm_num
  rw [e1, e2]
  have h1 : (⟨0, -5⟩ : Vec2).to_angle = -(Real.pi / 2) := by
    simp only [Vec2.to_angle]; exact arg_mk_zero_neg_five
  have h2 : (⟨0, 5⟩ : Vec2).to_angle = Real.pi / 2 := by
    simp only [Vec2.to_angle]; exact arg_mk_zero_five
  rw [h1, h2]
  refine ⟨rfl, ?_, rfl⟩
  have h3 : Real.pi / 2 - -(Real.pi / 2) = Real.pi := by ring
  rw [h3, remEuclid_pi_TAU]


theorem remEuclid_nonneg (a : ℝ) {b : ℝ} (hb : 0 < b) : 0 ≤ remEuclid a b := by
  unfold remEuclid
  rw [mul_comm]
  exact Int.sub_floor_div_mul_nonneg a hb

theorem remEuclid_lt (a : ℝ) {b : ℝ} (hb : 0 < b) : remEuclid a b < b := by
  unfold remEuclid
  rw [mul_comm]
  exact Int.sub_floor_div_mul_lt a hb

theorem TAU_pos : 0 < TAU := by
  unfold TAU
  positivity

/-- The claim's "signed radius `(x^2+y^2)/(2y)`" (spec wording, for
comparison with the code's construction). -/
def claim_signed_radius (source source_direction destination : Vec2) : ℝ :=
  let y := (destination - source).dot source_direction.perp
  let x := (destination - source).dot source_direction
  (x * x + y * y) / (2 * y)

/-- The claim's "center `= source + signed_radius * left_normal`". -/
def claim_center (source source_direction destination : Vec2) : Vec2 :=
  source + claim_signed_radius source source_direction destination • source_direction.perp

/-- The claim's angle span: end angle minus start angle, wrapped. -/
def claim_span (source source_direction destination : Vec2) : ℝ :=
  let c := claim_center source source_direction destination
  let raw := (destination - c).to_angle - (source - c).to_angle
  if claim_signed_radius source source_direction destination < 0 then
    remEuclid raw TAU - TAU
  else
    remEuclid raw TAU

theorem fsdd_cases (source source_direction destination : Vec2) :
    (|(destination - source).dot source_direction.perp| < 0.001 →
      TrackShape.from_source_direction_dest source source_direction destination =
        TrackShape.line source source_direction (destination - source).length) ∧
    (¬ |(destination - source).dot source_direction.perp| < 0.001 →
      TrackShape.from_source_direction_dest source source_direction destination =
        TrackShape.arc
          (Vec2.to_angle (source - claim_center source source_direction destination))
          (claim_span source source_direction destination)
          |claim_signed_radius source source_direction destination|
          (claim_center source source_direction destination)) := by
  constructor
  · intro hy
    unfold TrackShape.from_source_direction_dest
    rw [if_pos hy]
  · intro hy
    unfold TrackShape.from_source_direction_dest
    rw [if_neg hy]
    unfold claim_span claim_center claim_signed_radius
    rfl


theorem arc_scenario_endpoint :
    ((TrackShape.arc (-(Real.pi / 2)) Real.pi 5 ⟨0, 5⟩).get_transform_at_distance
      (TrackShape.arc (-(Real.pi / 2)) Real.pi 5 ⟨0, 5⟩).get_length).1 = ⟨0, 10⟩ := by
  simp only [TrackShape.get_length, TrackShape.get_transform_at_distance]
  rw [rsignum_of_nonneg Real.pi_pos.le]
  have hl : |Real.pi * 5| = Real.pi * 5 := abs_of_pos (by positivity)
  rw [hl]
  have ha : Real.pi * 5 * 1 / 5 + -(Real.pi / 2) = Real.pi / 2 := by ring
  rw [ha]
  ext
  · simp [Vec2.from_angle]
  · simp [Vec2.from_angle]
    norm_num

/-- C5: the tangent-arc constructor follows the claim's formulas — collinear
case below the `0.001` epsilon gives a `Line` with the source direction and
chord length; otherwise an `Arc` with the claim's signed radius, center and
wrapped angle span (the span lands in `[0, 2π)` for a nonnegative signed
radius and in `[-2π, 0)` for a negative one) — and on the concrete scenario
`source (0,0)`, `direction (1,0)`, `destination (0,10)` it yields the arc of
radius `5` through `(0,5)` whose endpoint equals `(0,10)` within tolerance. -/
theorem C5_from_source_direction_dest_spec :
    (∀ source source_direction destination : Vec2,
      (|(destination - source).dot source_direction.perp| < 0.001 →
        TrackShape.from_source_direction_dest source source_direction destination =
          TrackShape.line source source_direction (destination - source).length) ∧
      (¬ |(destination - source).dot source_direction.perp| < 0.001 →
        TrackShape.from_source_direction_dest source source_direction destination =
          TrackShape.arc
            (Vec2.to_angle (source - claim_center source source_direction destination))
            (claim_span source source_direction destination)
            |claim_signed_radius source source_direction destination|
            (claim_center source source_direction destination)) ∧
      (0 ≤ claim_signed_radius source source_direction destination →
        0 ≤ claim_span source source_direction destination ∧
        claim_span source source_direction destination < TAU) ∧
      (claim_signed_radius source source_direction destination < 0 →
        -TAU ≤ claim_span source source_direction destination ∧
        claim_span source source_direction destination < 0)) ∧
    (TrackShape.from_source_direction_dest ⟨0, 0⟩ ⟨1, 0⟩ ⟨0, 10⟩ =
        TrackShape.arc (-(Real.pi / 2)) Real.pi 5 ⟨0, 5⟩ ∧
      Vec2.distance
        ((TrackShape.from_source_direction_dest ⟨0, 0⟩ ⟨1, 0⟩ ⟨0, 10⟩).get_transform_at_distance
          (TrackShape.from_source_direction_dest ⟨0, 0⟩ ⟨1, 0⟩ ⟨0, 10⟩).get_length).1
        ⟨0, 10⟩ < 0.01) := by
  refine ⟨fun source source_direction destination =>
    ⟨(fsdd_cases _ _ _).1, (fsdd_cases _ _ _).2, ?_, ?_⟩, fsdd_scenario, ?_⟩
  · intro hsr
    unfold claim_span
    rw [if_neg (not_lt.mpr hsr)]
    exact ⟨remEuclid_nonneg _ TAU_pos, remEuclid_lt _ TAU_pos⟩
  · intro hsr
    unfold claim_span
    rw [if_pos hsr]
    constructor
    · have := remEuclid_nonneg
        ((destination - claim_center source source_direction destination).to_angle -
          (source - claim_center source source_direction destination).to_angle) TAU_pos
      linarith
    · have := remEuclid_lt
        ((destination - claim_center source source_direction destination).to_angle -
          (source - claim_center source source_direction destination).to_angle) TAU_pos
      linarith
  · rw [fsdd_scenario, arc_scenario_endpoint]
    simp [Vec2.distance, Vec2.length]
    norm_num

/-- Witness for C5 on the collinear input `(0,0) → (7,0)` with direction
`(1,0)`, which takes the `Line` branch. -/
theorem C5_from_source_direction_dest_witness :
    TrackShape.from_source_direction_dest ⟨0, 0⟩ ⟨1, 0⟩ ⟨7, 0⟩ =
      TrackShape.line ⟨0, 0⟩ ⟨1, 0⟩ ((⟨7, 0⟩ - (⟨0, 0⟩ : Vec2)).length) :=
  (C5_from_source_direction_dest_spec.1 ⟨0, 0⟩ ⟨1, 0⟩ ⟨7, 0⟩).1
    (by norm_num [Vec2.dot, Vec2.perp])


/-- `IDEAL_SEGMENT_LENGTH` (`src/track.rs`). -/
def IDEAL_SEGMENT_LENGTH : ℝ := 3

/-- `MAX_RADIUS` (`src/track.rs`). -/
def MAX_RADIUS : ℝ := 4

/-- Loop body of `Network::add_track`: processes the remaining segment
indices in order, carrying the `last_segment` junction and the
`first_segment` accumulator exactly as the source's `for` loop does (the
non-final iterations insert a fresh junction at the cut point and assign its
direction from the shape's tangent there; the fresh junction's id returned by
`add_junction` is written out as `net.junctions.length`, which is what
`add_junction` returns). -/
def add_track_segs (shape : TrackShape) (segment_length : ℝ)
    (number_of_segments destination_id : ℕ) :
    List ℕ → ℕ → Option ℕ → Network → Option (Network × Option ℕ)
  | [], _, first_segment, net => some (net, first_segment)
  | seg :: rest, last_segment, first_segment, net =>
      if seg = number_of_segments - 1 then
        match add_track_segment net last_segment destination_id
            (shape.subshape ((seg : ℝ) * segment_length)
              (((seg : ℝ) + 1) * segment_length)) with
        | none => none
        | some (net2, segment) =>
            add_track_segs shape segment_length number_of_segments destination_id
              rest destination_id (some (first_segment.getD segment)) net2
      else
        match add_track_segment
            (set_junction_direction
              (add_junction net (shape.get_transform_at_distance
                (((seg : ℝ) + 1) * segment_length)).1).1
              net.junctions.length
              (Vec2.from_angle (shape.get_transform_at_distance
                (((seg : ℝ) + 1) * segment_length)).2))
            last_segment net.junctions.length
            (shape.subshape ((seg : ℝ) * segment_length)
              (((seg : ℝ) + 1) * segment_length)) with
        | none => none
        | some (net2, segment) =>
            add_track_segs shape segment_length number_of_segments destination_id
              rest net.junctions.length (some (first_segment.getD segment)) net2

/-- `Network::add_track`: note the segment count is
`max(floor(length / IDEAL_SEGMENT_LENGTH), 1)` (the `as usize` cast of the
floored `f32`, which also sends negative values to `0`, is `Nat.floor`). -/
def add_track (net : Network) (source_id destination_id : ℕ)
    (shape : TrackShape) : Option (Network × ℕ) :=
  let length := shape.get_length
  let number_of_segments := max ⌊length / IDEAL_SEGMENT_LENGTH⌋₊ 1
  let segment_length := length / (number_of_segments : ℝ)
  match add_track_segs shape segment_length number_of_segments destination_id
      (List.range number_of_segments) source_id none net with
  | none => none
  | some (net2, first_segment) =>
      match first_segment with
      | none => none
      | some first => some (net2, first)

/-- `Network::create_line`. -/
def create_line (net : Network) (source_id destination_id : ℕ) :
    Option (Network × ℕ) :=
  match net.junctions[source_id]?, net.junctions[destination_id]? with
  | some source, some destination =>
      let angle := (destination.position - source.position).normalize
      match add_track net source_id destination_id
          (TrackShape.line source.position angle
            (destination.position - source.position).length) with
      | none => none
      | some (net1, track) =>
          let net2 := get_or_insert_direction net1 source_id angle
          let net3 := get_or_insert_direction net2 destination_id angle
          some (net3, track)
  | _, _ => none

/-- One `(sign_1, sign_2)` candidate of the both-directions bend solver in
`Network::connect_track`, including its forward-progress filter. -/
def s_curve_candidate (source_position a1 destination_position a2 : Vec2)
    (sign_1 sign_2 : ℝ) : Option (Vec2 × Vec2) :=
  let c1 := source_position + sign_1 • (MAX_RADIUS • a1.perp)
  let c2 := destination_position + sign_2 • (MAX_RADIUS • a2.perp)
  let direction := (c2 - c1).normalize
  let midpoint_1 := c1 - (MAX_RADIUS * sign_1) • direction.perp
  let midpoint_2 := c2 - (MAX_RADIUS * sign_2) • direction.perp
  let target_direction_vector := destination_position - source_position
  if (midpoint_1 - source_position).dot target_direction_vector > 0 ∧
      (midpoint_2 - midpoint_1).dot target_direction_vector > 0 ∧
      (destination_position - midpoint_2).dot target_direction_vector > 0 then
    some (midpoint_1, midpoint_2)
  else none

/-- The bend solver's candidate iteration, in the source's order
`(-1,-1), (-1,1), (1,-1), (1,1)`; `none` models the `unwrap` panic when no
candidate passes the filter. -/
def s_curve_midpoints (sp a1 dp a2 : Vec2) : Option (Vec2 × Vec2) :=
  (s_curve_candidate sp a1 dp a2 (-1) (-1)).orElse fun _ =>
  (s_curve_candidate sp a1 dp a2 (-1) 1).orElse fun _ =>
  (s_curve_candidate sp a1 dp a2 1 (-1)).orElse fun _ =>
  s_curve_candidate sp a1 dp a2 1 1

/-- `Network::connect_track`.  Rust recursion is modelled with explicit
fuel; the recursive calls of the both-directions case hand fresh
(direction-free) midpoint junctions to the single-direction cases, which do
not recurse, so the actual depth is at most 2 and `connect_track 2` executes
the source faithfully. -/
def connect_track : ℕ → Network → ℕ → ℕ → Option (Network × ℕ)
  | 0, _, _, _ => none
  | Nat.succ fuel, net, source_id, destination_id =>
      match net.junctions[source_id]?, net.junctions[destination_id]? with
      | some source, some destiation =>
          match source.direction, destiation.direction with
          | none, none => create_line net source_id destination_id
          | some source_direction, none =>
              let arc := TrackShape.from_source_direction_dest source.position
                source_direction destiation.position
              let net1 := set_junction_direction net destination_id
                (Vec2.from_angle (arc.get_transform_at_distance arc.get_length).2)
              add_track net1 source_id destination_id arc
          | none, some destination_direction =>
              let arc := (TrackShape.from_source_direction_dest destiation.position
                (-destination_direction) source.position).reverse
              let net1 := set_junction_direction net source_id
                (Vec2.from_angle (arc.get_transform_at_distance 0).2)
              add_track net1 source_id destination_id arc
          | some a1, some a2 =>
              match s_curve_midpoints source.position a1 destiation.position a2 with
              | none => none
              | some (midpoint_1, midpoint_2) =>
                  let p1 := add_junction net midpoint_1
                  let p2 := add_junction p1.1 midpoint_2
                  match connect_track fuel p2.1 source_id p1.2 with
                  | none => none
                  | some (net3, _) =>
                      match connect_track fuel net3 p2.2 destination_id with
                      | none => none
                      | some (net4, _) => create_line net4 p1.2 p2.2
      | _, _ => none

/-- `Network::add_station`. -/
def add_station (net : Network) (position : Vec2) (length angle : ℝ) :
    Option (Network × ℕ) :=
  let station_id := net.stations.length
  let p1 := add_junction net position
  let p2 := add_junction p1.1 (position + length • Vec2.from_angle angle)
  match add_track p2.1 p1.2 p2.2
      (TrackShape.line position (Vec2.from_angle angle) length) with
  | none => none
  | some (net3, segment) =>
      some
        ({ net3 with
            stations := net3.stations ++
              [{ position := position, length := length, track := segment,
                 angle := angle }] },
         station_id)

/-- `Network::add_train`. -/
def add_train (net : Network) (track : ℕ) : Option (Network × ℕ) :=
  let train_id := net.trains.length
  let net1 : Network :=
    { net with trains := net.trains ++ [{ id := train_id, track := track, distance := 0 }] }
  match net1.tracks[track]? with
  | none => none
  | some tr =>
      some
        ({ net1 with
            tracks := net1.tracks.set track { tr with trains := tr.trains ++ [train_id] } },
         train_id)

/-- One iteration of `Network::update`'s train loop, for the train at index
`i`.  `rng i % len` models `thread_rng().gen_range(0..len)` (which panics,
hence `none`, when the exit list is empty). -/
def update_one (rng : ℕ → ℕ) (delta_time : ℝ) (i : ℕ) (net : Network) :
    Option Network :=
  match net.trains[i]? with
  | none => none
  | some train =>
      match net.tracks[train.track]? with
      | none => none
      | some track =>
          if train.distance + delta_time * 8 > |track.length| then
            match net.junctions[track.destiation]? with
            | none => none
            | some junction =>
                if junction.exits.length = 0 then none
                else
                  match junction.exits.get (rng i % junction.exits.length) with
                  | none => none
                  | some next_track_id =>
                      match net.tracks[next_track_id]? with
                      | none => none
                      | some next_track =>
                          let net1 : Network :=
                            { net with
                                tracks := net.tracks.set next_track_id
                                  { next_track with
                                      trains := next_track.trains ++ [train.id] } }
                          some
                            { net1 with
                                trains := net1.trains.set i
                                  { train with
                                      distance := frem (train.distance + delta_time * 8)
                                        |track.length|,
                                      track := next_track.id } }
          else
            some { net with
                trains := net.trains.set i
                  { train with distance := train.distance + delta_time * 8 } }

/-- `Network::update`: the `for train in &mut self.trains` loop, traversing
the trains in index order (the train count does not change during the
loop). -/
def update (net : Network) (delta_time : ℝ) (rng : ℕ → ℕ) : Option Network :=
  (List.range net.trains.length).foldlM
    (fun n i => update_one rng delta_time i n) net

/-- A construction call of the public building API, for quantifying over
arbitrary construction sequences. -/
inductive Op where
  | add_junction (position : Vec2)
  | create_line (source destination : ℕ)
  | connect_track (source destination : ℕ)
  | add_track (source destination : ℕ) (shape : TrackShape)
  | add_station (position : Vec2) (length angle : ℝ)

/-- Execution of one construction call (ids returned to the caller are not
needed for the invariant, so they are dropped). -/
def apply_op (net : Network) : Op → Option Network
  | Op.add_junction position => some (add_junction net position).1
  | Op.create_line s d => (create_line net s d).map Prod.fst
  | Op.connect_track s d => (connect_track 2 net s d).map Prod.fst
  | Op.add_track s d shape => (add_track net s d shape).map Prod.fst
  | Op.add_station p len ang => (add_station net p len ang).map Prod.fst

/-- Execution of a construction sequence. -/
def apply_ops (net : Network) : List Op → Option Network
  | [] => some net
  | op :: ops =>
      match apply_op net op with
      | none => none
      | some net1 => apply_ops net1 ops


/-- The C2 scenario network: a train at distance `0` on a straight track of
length `10` from junction `0` to junction `1`; junction `1` has one exit
track (track `1`, leading back), so a wraparound would have somewhere to
go. -/
def c2_network : Network :=
  { tracks :=
      [{ id := 0, source := 0, destiation := 1, trains := [0],
         length := 10, shape := TrackShape.line ⟨0, 0⟩ ⟨1, 0⟩ 10 },
       { id := 1, source := 1, destiation := 0, trains := [],
         length := 10, shape := TrackShape.line ⟨10, 0⟩ ⟨-1, 0⟩ 10 }],
    junctions :=
      [{ id := 0, position := ⟨0, 0⟩, enterances := Minivec.mk 1 (fun _ => 1),
         exits := Minivec.mk 1 (fun _ => 0), direction := none },
       { id := 1, position := ⟨10, 0⟩, enterances := Minivec.mk 1 (fun _ => 0),
         exits := Minivec.mk 1 (fun _ => 1), direction := none }],
    trains := [{ id := 0, track := 0, distance := 0 }],
    stations := [] }

theorem c2_eval (rng : ℕ → ℕ) :
    update c2_network 1.25 rng =
      some { c2_network with trains := [{ id := 0, track := 0, distance := 10 }] } := by
  unfold update c2_network
  norm_num [update_one, List.foldlM]


/-- Counterexample to C2: on the scenario network, `update(1.25)` at speed
`8` lands the train at distance exactly `10.0`, and the code's strict
comparison `distance > length` does not fire: the train keeps track `0` and
distance `10.0`, which is not `0.0` — no wraparound, no track switch. -/
theorem C2_exact_boundary_counterexample :
    (update c2_network 1.25 (fun _ => 0)).map
        (fun n => n.trains.map fun t => (t.track, t.distance)) =
      some [(0, 10)] ∧ (10 : ℝ) ≠ 0 := by
  constructor
  · rw [c2_eval]
    rfl
  · norm_num

/-- C2 (amended): a train at distance `0` on the length-10 straight track
advanced by `update(1.25)` at speed `8` reaches distance exactly `10.0` and
does NOT wrap (the transition fires only when the distance strictly exceeds
the track's length): whatever the random oracle, the train stays on its
track with distance `10.0` and the rest of the network is unchanged. -/
theorem C2_update_exact_boundary_amended (rng : ℕ → ℕ) :
    update c2_network 1.25 rng =
      some { c2_network with trains := [{ id := 0, track := 0, distance := 10 }] } :=
  c2_eval rng


theorem abs_rsignum (x : ℝ) : |rsignum x| = 1 := by
  unfold rsignum
  split
  · norm_num
  · norm_num

theorem subshape_get_length {shape : TrackShape} (hwf : shape.wf) {a b : ℝ}
    (hab : a ≤ b) : (shape.subshape a b).get_length = b - a := by
  cases shape with
  | line source direction length => rfl
  | arc start_angle angle_diff radius center =>
      have hr : (0 : ℝ) < radius := hwf
      show |(b - a) / radius * rsignum angle_diff * radius| = b - a
      rw [abs_mul, abs_mul, abs_rsignum, mul_one, abs_div, abs_of_pos hr,
        div_mul_cancel₀ _ hr.ne']
      exact abs_of_nonneg (by linarith)

theorem add_track_segment_spec (net : Network) (a b : ℕ) (sh : TrackShape)
    (net2 : Network) (tid : ℕ)
    (h : add_track_segment net a b sh = some (net2, tid)) :
    tid = net.tracks.length ∧
    net2.tracks = net.tracks ++
      [Track.mk net.tracks.length a b [] sh.get_length sh] ∧
    net2.junctions.length = net.junctions.length ∧
    (∀ (j : ℕ) (jn : Junction), net.junctions[j]? = some jn →
      ∃ jn' : Junction, net2.junctions[j]? = some jn' ∧
        jn'.id = jn.id ∧ jn'.position = jn.position ∧
        jn'.direction = jn.direction) := by
  unfold add_track_segment at h
  split at h
  · exact absurd h (by simp)
  next jsrc hsrc =>
    split at h
    · exact absurd h (by simp)
    next exits2 u hpush =>
      split at h
      · exact absurd h (by simp)
      next jdst hdst =>
        split at h
        · exact absurd h (by simp)
        next ent2 u2 hpush2 =>
          have hp := Option.some.inj h
          injection hp with e1 e2
          subst e1
          subst e2
          have halen : a < net.junctions.length :=
            (List.getElem?_eq_some_iff.mp hsrc).1
          have hblen : b < net.junctions.length := by
            have := (List.getElem?_eq_some_iff.mp hdst).1
            simpa using this
          refine ⟨rfl, rfl, by simp, ?_⟩
          intro j jn hj
          by_cases hjb : j = b
          · subst hjb
            refine ⟨{ jdst with enterances := ent2 }, ?_, ?_, ?_, ?_⟩
            · dsimp only
              rw [List.getElem?_set_self (by simpa using hblen)]
            · by_cases hja : j = a
              · subst hja
                rw [List.getElem?_set_self halen] at hdst
                have h1 : jdst = { jsrc with exits := exits2 } :=
                  (Option.some.inj hdst).symm
                have h2 : jn = jsrc := by
                  rw [hj] at hsrc
                  exact (Option.some.inj hsrc)
                rw [h1, h2]
              · rw [List.getElem?_set_ne (fun hc => hja hc.symm)] at hdst
                rw [hj] at hdst
                rw [(Option.some.inj hdst).symm]
            · by_cases hja : j = a
              · subst hja
                rw [List.getElem?_set_self halen] at hdst
                have h1 : jdst = { jsrc with exits := exits2 } :=
                  (Option.some.inj hdst).symm
                have h2 : jn = jsrc := by
                  rw [hj] at hsrc
                  exact (Option.some.inj hsrc)
                rw [h1, h2]
              · rw [List.getElem?_set_ne (fun hc => hja hc.symm)] at hdst
                rw [hj] at hdst
                rw [(Option.some.inj hdst).symm]
            · by_cases hja : j = a
              · subst hja
                rw [List.getElem?_set_self halen] at hdst
                have h1 : jdst = { jsrc with exits := exits2 } :=
                  (Option.some.inj hdst).symm
                have h2 : jn = jsrc := by
                  rw [hj] at hsrc
                  exact (Option.some.inj hsrc)
                rw [h1, h2]
              · rw [List.getElem?_set_ne (fun hc => hja hc.symm)] at hdst
                rw [hj] at hdst
                rw [(Option.some.inj hdst).symm]
          · by_cases hja : j = a
            · subst hja
              have h2 : jn = jsrc := by
                rw [hj] at hsrc
                exact (Option.some.inj hsrc)
              refine ⟨{ jsrc with exits := exits2 }, ?_, by rw [h2], by rw [h2],
                by rw [h2]⟩
              dsimp only
              rw [List.getElem?_set_ne (fun hc => hjb hc.symm),
                List.getElem?_set_self halen]
            · refine ⟨jn, ?_, rfl, rfl, rfl⟩
              dsimp only
              rw [List.getElem?_set_ne (fun hc => hjb hc.symm),
                List.getElem?_set_ne (fun hc => hja hc.symm)]
              exact hj


theorem add_track_segs_spec (shape : TrackShape) (ℓ : ℝ) (n dst : ℕ) :
    ∀ (len i lastj : ℕ) (net : Network) (first : Option ℕ) (net2 : Network)
      (first2 : Option ℕ),
      i + len = n → 0 < len →
      add_track_segs shape ℓ n dst (List.range' i len) lastj first net =
        some (net2, first2) →
      first2 = some (first.getD net.tracks.length) ∧
      net2.tracks.length = net.tracks.length + len ∧
      net2.junctions.length = net.junctions.length + (len - 1) ∧
      (∀ j : ℕ, j < net.tracks.length → net2.tracks[j]? = net.tracks[j]?) ∧
      (∀ k : ℕ, k < len → ∃ t : Track,
        net2.tracks[net.tracks.length + k]? = some t ∧
        t.id = net.tracks.length + k ∧
        t.shape = shape.subshape (((i + k : ℕ) : ℝ) * ℓ)
          ((((i + k : ℕ) : ℝ) + 1) * ℓ) ∧
        t.length = (shape.subshape (((i + k : ℕ) : ℝ) * ℓ)
          ((((i + k : ℕ) : ℝ) + 1) * ℓ)).get_length) ∧
      (∀ k : ℕ, k + 1 < len → ∃ jn : Junction,
        net2.junctions[net.junctions.length + k]? = some jn ∧
        jn.position = (shape.get_transform_at_distance
          ((((i + k : ℕ) : ℝ) + 1) * ℓ)).1 ∧
        jn.direction = some (Vec2.from_angle
          ((shape.get_transform_at_distance ((((i + k : ℕ) : ℝ) + 1) * ℓ)).2))) ∧
      (∀ (j : ℕ) (jn : Junction), net.junctions[j]? = some jn →
        ∃ jn' : Junction, net2.junctions[j]? = some jn' ∧
          jn'.position = jn.position ∧ jn'.direction = jn.direction)
  | 0, i, lastj, net, first, net2, first2, hin, hpos, h => absurd hpos (by omega)
  | Nat.succ len', i, lastj, net, first, net2, first2, hin, hpos, h => by
      rw [List.range'_succ] at h
      by_cases hlast : i = n - 1
      · -- final segment: len' = 0
        have hlen0 : len' = 0 := by omega
        subst hlen0
        unfold add_track_segs at h
        rw [if_pos hlast] at h
        cases hseg : add_track_segment net lastj dst
            (shape.subshape ((i : ℝ) * ℓ) (((i : ℝ) + 1) * ℓ)) with
        | none => rw [hseg] at h; simp at h
        | some pr =>
            obtain ⟨netC, segment⟩ := pr
            rw [hseg] at h
            have hnil : List.range' (i + 1) 0 = [] := rfl
            rw [hnil] at h
            unfold add_track_segs at h
            have hp := Option.some.inj h
            injection hp with e1 e2
            subst e1
            subst e2
            obtain ⟨hsegid, hCtracks, hCjlen, hCpres⟩ :=
              add_track_segment_spec net lastj dst _ netC segment hseg
            subst hsegid
            refine ⟨rfl, ?_, by omega, ?_, ?_, ?_, ?_⟩
            · rw [hCtracks]; simp
            · intro j hj
              rw [hCtracks, List.getElem?_append_left hj]
            · intro k hk
              have hk0 : k = 0 := by omega
              subst hk0
              refine ⟨Track.mk net.tracks.length lastj dst []
                  (shape.subshape ((i : ℝ) * ℓ) (((i : ℝ) + 1) * ℓ)).get_length
                  (shape.subshape ((i : ℝ) * ℓ) (((i : ℝ) + 1) * ℓ)),
                ?_, rfl, rfl, rfl⟩
              rw [Nat.add_zero, hCtracks]
              exact List.getElem?_concat_length net.tracks _
            · intro k hk
              omega
            · intro j jn hj
              obtain ⟨jn', hjn', _, hp2, hd2⟩ := hCpres j jn hj
              exact ⟨jn', hjn', hp2, hd2⟩
      · -- intermediate segment: a fresh junction is inserted
        have hlen' : 0 < len' := by omega
        unfold add_track_segs at h
        rw [if_neg hlast] at h
        cases hseg : add_track_segment
            (set_junction_direction
              (add_junction net (shape.get_transform_at_distance
                (((i : ℝ) + 1) * ℓ)).1).1
              net.junctions.length
              (Vec2.from_angle (shape.get_transform_at_distance
                (((i : ℝ) + 1) * ℓ)).2))
            lastj net.junctions.length
            (shape.subshape ((i : ℝ) * ℓ) (((i : ℝ) + 1) * ℓ)) with
        | none => rw [hseg] at h; simp at h
        | some pr =>
            obtain ⟨netC, segment⟩ := pr
            rw [hseg] at h
            have hBj : (set_junction_direction
                (add_junction net (shape.get_transform_at_distance
                  (((i : ℝ) + 1) * ℓ)).1).1
                net.junctions.length
                (Vec2.from_angle (shape.get_transform_at_distance
                  (((i : ℝ) + 1) * ℓ)).2)).junctions =
                net.junctions ++
                  [Junction.mk net.junctions.length
                    (shape.get_transform_at_distance (((i : ℝ) + 1) * ℓ)).1
                    Minivec.new Minivec.new
                    (some (Vec2.from_angle (shape.get_transform_at_distance
                      (((i : ℝ) + 1) * ℓ)).2))] := by
              unfold set_junction_direction add_junction
              dsimp only
              rw [List.getElem?_concat_length]
              dsimp only
              rw [List.set_append_right _ _ (le_refl _)]
              simp
            have hBt : (set_junction_direction
                (add_junction net (shape.get_transform_at_distance
                  (((i : ℝ) + 1) * ℓ)).1).1
                net.junctions.length
                (Vec2.from_angle (shape.get_transform_at_distance
                  (((i : ℝ) + 1) * ℓ)).2)).tracks = net.tracks := by
              unfold set_junction_direction add_junction
              dsimp only
              rw [List.getElem?_concat_length]
            obtain ⟨hsegid, hCtracks, hCjlen, hCpres⟩ :=
              add_track_segment_spec _ lastj net.junctions.length _ netC segment hseg
            rw [hBt] at hsegid hCtracks
            subst hsegid
            have ih := add_track_segs_spec shape ℓ n dst len' (i + 1)
              net.junctions.length netC (some (first.getD net.tracks.length))
              net2 first2 (by omega) hlen' h
            obtain ⟨ihA, ihB, ihC, ihD, ihE, ihF, ihG⟩ := ih
            have hCtlen : netC.tracks.length = net.tracks.length + 1 := by
              rw [hCtracks]; simp
            have hCjlen2 : netC.junctions.length = net.junctions.length + 1 := by
              rw [hCjlen, hBj]; simp
            have hfresh : (set_junction_direction
                (add_junction net (shape.get_transform_at_distance
                  (((i : ℝ) + 1) * ℓ)).1).1
                net.junctions.length
                (Vec2.from_angle (shape.get_transform_at_distance
                  (((i : ℝ) + 1) * ℓ)).2)).junctions[net.junctions.length]? =
                some (Junction.mk net.junctions.length
                  (shape.get_transform_at_distance (((i : ℝ) + 1) * ℓ)).1
                  Minivec.new Minivec.new
                  (some (Vec2.from_angle (shape.get_transform_at_distance
                    (((i : ℝ) + 1) * ℓ)).2))) := by
              rw [hBj]
              exact List.getElem?_concat_length _ _
            refine ⟨?_, by omega, by omega, ?_, ?_, ?_, ?_⟩
            · rw [ihA]; simp
            · intro j hj
              rw [ihD j (by omega), hCtracks, List.getElem?_append_left hj]
            · intro k hk
              match k with
              | 0 =>
                  refine ⟨Track.mk net.tracks.length lastj net.junctions.length []
                      (shape.subshape ((i : ℝ) * ℓ) (((i : ℝ) + 1) * ℓ)).get_length
                      (shape.subshape ((i : ℝ) * ℓ) (((i : ℝ) + 1) * ℓ)),
                    ?_, rfl, rfl, rfl⟩
                  rw [Nat.add_zero, ihD net.tracks.length (by omega), hCtracks]
                  exact List.getElem?_concat_length net.tracks _
              | Nat.succ k' =>
                  obtain ⟨t, ht, hid, hshape, hlen⟩ := ihE k' (by omega)
                  have hix : i + 1 + k' = i + (k' + 1) := by omega
                  rw [hix] at hshape hlen
                  rw [hCtlen] at ht hid
                  have hidx : net.tracks.length + 1 + k' =
                      net.tracks.length + (k' + 1) := by omega
                  rw [hidx] at ht hid
                  exact ⟨t, ht, hid, hshape, hlen⟩
            · intro k hk
              match k with
              | 0 =>
                  obtain ⟨jnC, hjnC, _, hpC, hdC⟩ := hCpres _ _ hfresh
                  obtain ⟨jn', hjn', hp', hd'⟩ := ihG _ _ hjnC
                  refine ⟨jn', ?_, ?_, ?_⟩
                  · rw [Nat.add_zero]
                    exact hjn'
                  · exact hp'.trans hpC
                  · exact hd'.trans hdC
              | Nat.succ k' =>
                  obtain ⟨jn, hjn, hpj, hdj⟩ := ihF k' (by omega)
                  have hix : i + 1 + k' = i + (k' + 1) := by omega
                  rw [hix] at hpj hdj
                  rw [hCjlen2] at hjn
                  have hidx : net.junctions.length + 1 + k' =
                      net.junctions.length + (k' + 1) := by omega
                  rw [hidx] at hjn
                  exact ⟨jn, hjn, hpj, hdj⟩
            · intro j jn hj
              have hjlen : j < net.junctions.length :=
                (List.getElem?_eq_some_iff.mp hj).1
              have hBjj : (set_junction_direction
                  (add_junction net (shape.get_transform_at_distance
                    (((i : ℝ) + 1) * ℓ)).1).1
                  net.junctions.length
                  (Vec2.from_angle (shape.get_transform_at_distance
                    (((i : ℝ) + 1) * ℓ)).2)).junctions[j]? = some jn := by
                rw [hBj, List.getElem?_append_left hjlen]
                exact hj
              obtain ⟨jnC, hjnC, _, hpC, hdC⟩ := hCpres _ _ hBjj
              obtain ⟨jn', hjn', hp', hd'⟩ := ihG _ _ hjnC
              exact ⟨jn', hjn', hp'.trans hpC, hd'.trans hdC⟩


/-- The code's segment count for `add_track`:
`((length / IDEAL_SEGMENT_LENGTH).floor() as usize).max(1)`. -/
def number_of_segments (shape : TrackShape) : ℕ :=
  max ⌊shape.get_length / IDEAL_SEGMENT_LENGTH⌋₊ 1

/-- The code's per-segment length for `add_track`. -/
def segment_length (shape : TrackShape) : ℝ :=
  shape.get_length / (number_of_segments shape : ℝ)

theorem number_of_segments_pos (shape : TrackShape) : 0 < number_of_segments shape :=
  lt_of_lt_of_le one_pos (le_max_right _ 1)

/-- C1 (amended): `add_track` subdivides the shape into exactly
`max(floor(length / IDEAL_SEGMENT_LENGTH), 1)` equal-length sub-segments —
floor, not the claimed ceiling — with the `k`-th segment's shape the
restriction of the original to `[k*ℓ, (k+1)*ℓ]`, inserting at each interior
cut point a fresh junction whose position and direction are taken from the
shape's transform (tangent) there, and returns the `TrackID` of the first
sub-segment (the id `net.tracks.length` it had on entry). -/
theorem C1_add_track_floor_subdivision (net : Network) (src dst : ℕ)
    (shape : TrackShape) (net2 : Network) (tid : ℕ)
    (hwf : shape.wf) (hlen : 0 ≤ shape.get_length)
    (h : add_track net src dst shape = some (net2, tid)) :
    tid = net.tracks.length ∧
    net2.tracks.length = net.tracks.length + number_of_segments shape ∧
    (∀ k : ℕ, k < number_of_segments shape → ∃ t : Track,
      net2.tracks[net.tracks.length + k]? = some t ∧
      t.id = net.tracks.length + k ∧
      t.shape = shape.subshape ((k : ℝ) * segment_length shape)
        (((k : ℝ) + 1) * segment_length shape) ∧
      t.length = segment_length shape) ∧
    (∀ k : ℕ, k + 1 < number_of_segments shape → ∃ jn : Junction,
      net2.junctions[net.junctions.length + k]? = some jn ∧
      jn.position = (shape.get_transform_at_distance
        (((k : ℝ) + 1) * segment_length shape)).1 ∧
      jn.direction = some (Vec2.from_angle ((shape.get_transform_at_distance
        (((k : ℝ) + 1) * segment_length shape)).2))) := by
  unfold add_track at h
  unfold segment_length number_of_segments
  dsimp only [] at h
  cases hseg : add_track_segs shape
      (shape.get_length / ((max ⌊shape.get_length / IDEAL_SEGMENT_LENGTH⌋₊ 1 : ℕ) : ℝ))
      (max ⌊shape.get_length / IDEAL_SEGMENT_LENGTH⌋₊ 1) dst
      (List.range (max ⌊shape.get_length / IDEAL_SEGMENT_LENGTH⌋₊ 1)) src none net with
  | none => rw [hseg] at h; simp at h
  | some pr =>
      obtain ⟨net3, first_segment⟩ := pr
      rw [hseg] at h
      cases first_segment with
      | none => exact absurd h (by simp)
      | some f =>
          replace h : some (net3, f) = some (net2, tid) := h
          have hp := Option.some.inj h
          injection hp with e1 e2
          subst e1
          subst e2
          rw [List.range_eq_range'] at hseg
          have hspec := add_track_segs_spec shape
            (shape.get_length / ((max ⌊shape.get_length / IDEAL_SEGMENT_LENGTH⌋₊ 1 : ℕ) : ℝ))
            (max ⌊shape.get_length / IDEAL_SEGMENT_LENGTH⌋₊ 1) dst
            (max ⌊shape.get_length / IDEAL_SEGMENT_LENGTH⌋₊ 1) 0 src net none net3
            (some f) (by omega) (number_of_segments_pos shape) hseg
          obtain ⟨hA, hB, hC, hD, hE, hF, hG⟩ := hspec
          have hf' : f = net.tracks.length := by
            have := Option.some.inj hA
            simpa using this
          have hseg_nonneg :
              0 ≤ shape.get_length /
                ((max ⌊shape.get_length / IDEAL_SEGMENT_LENGTH⌋₊ 1 : ℕ) : ℝ) :=
            div_nonneg hlen (Nat.cast_nonneg _)
          refine ⟨hf', hB, ?_, ?_⟩
          · intro k hk
            obtain ⟨t, ht, hid, hshape, hlen2⟩ := hE k hk
            rw [Nat.zero_add] at hshape hlen2
            refine ⟨t, ht, hid, hshape, ?_⟩
            rw [hlen2, subshape_get_length hwf (by nlinarith [hseg_nonneg])]
            ring
          · intro k hk
            obtain ⟨jn, hjn, hpj, hdj⟩ := hF k hk
            rw [Nat.zero_add] at hpj hdj
            exact ⟨jn, hjn, hpj, hdj⟩


/-- A two-junction network for exercising `add_track` on a length-4 line. -/
def c1_network : Network :=
  { tracks := [], trains := [], stations := [],
    junctions := [Junction.mk 0 ⟨0, 0⟩ Minivec.new Minivec.new none,
                  Junction.mk 1 ⟨4, 0⟩ Minivec.new Minivec.new none] }

theorem c1_floor : ⌊(4 : ℝ) / 3⌋₊ = 1 := by
  rw [Nat.floor_eq_iff (by norm_num)]
  norm_num

theorem c1_segments :
    number_of_segments (TrackShape.line ⟨0, 0⟩ ⟨1, 0⟩ 4) = 1 := by
  unfold number_of_segments
  have h4 : (TrackShape.line ⟨0, 0⟩ ⟨1, 0⟩ 4).get_length / IDEAL_SEGMENT_LENGTH =
      (4 : ℝ) / 3 := rfl
  rw [h4, c1_floor]
  simp

theorem c1_eval :
    ∃ net2 : Network,
      add_track c1_network 0 1 (TrackShape.line ⟨0, 0⟩ ⟨1, 0⟩ 4) = some (net2, 0) ∧
      net2.tracks.length = 1 := by
  unfold add_track
  dsimp only []
  have h4 : (TrackShape.line ⟨0, 0⟩ ⟨1, 0⟩ 4).get_length / IDEAL_SEGMENT_LENGTH =
      (4 : ℝ) / 3 := rfl
  rw [h4, c1_floor]
  norm_num [add_track_segs, add_track_segment, Minivec.push, Minivec.new,
    c1_network]


/-- Counterexample to C1: on a length-4 straight shape the code produces
`max(floor(4/3), 1) = 1` sub-segment — `add_track` yields exactly one new
track — while the claim's formula `max(1, ceil(4/3))` demands `2`. -/
theorem C1_ceil_subdivision_counterexample :
    (∃ net2 : Network,
      add_track c1_network 0 1 (TrackShape.line ⟨0, 0⟩ ⟨1, 0⟩ 4) =
        some (net2, 0) ∧ net2.tracks.length = 1) ∧
    max ⌈(TrackShape.line ⟨0, 0⟩ ⟨1, 0⟩ 4).get_length /
      IDEAL_SEGMENT_LENGTH⌉₊ 1 = 2 ∧
    (1 : ℕ) ≠ 2 := by
  refine ⟨c1_eval, ?_, by norm_num⟩
  have h4 : (TrackShape.line ⟨0, 0⟩ ⟨1, 0⟩ 4).get_length / IDEAL_SEGMENT_LENGTH =
      (4 : ℝ) / 3 := rfl
  have hc : ⌈(4 : ℝ) / 3⌉₊ = 2 := by
    rw [Nat.ceil_eq_iff (by norm_num)]
    norm_num
  rw [h4, hc]
  simp

/-- Witness for the amended C1 on the concrete length-4 line: the run
succeeds and adds exactly `number_of_segments` (= 1) track. -/
theorem C1_add_track_floor_subdivision_witness :
    ∃ net2 : Network,
      add_track c1_network 0 1 (TrackShape.line ⟨0, 0⟩ ⟨1, 0⟩ 4) =
        some (net2, 0) ∧
      net2.tracks.length = c1_network.tracks.length +
        number_of_segments (TrackShape.line ⟨0, 0⟩ ⟨1, 0⟩ 4) := by
  obtain ⟨net2, hrun, _⟩ := c1_eval
  have hh := C1_add_track_floor_subdivision c1_network 0 1
    (TrackShape.line ⟨0, 0⟩ ⟨1, 0⟩ 4) net2 0 trivial
    (by norm_num [TrackShape.get_length]) hrun
  exact ⟨net2, hrun, hh.2.1⟩

/-- Direction stability between two network states: any junction whose
direction is already `some v` still has direction `some v`. -/
def dir_preserved (net net2 : Network) : Prop :=
  ∀ (j : ℕ) (jn : Junction) (v : Vec2),
    net.junctions[j]? = some jn → jn.direction = some v →
    ∃ jn' : Junction, net2.junctions[j]? = some jn' ∧ jn'.direction = some v

theorem dir_preserved_refl (net : Network) : dir_preserved net net :=
  fun _ jn v hj hv => ⟨jn, hj, hv ▸ rfl⟩

theorem dir_preserved_trans {a b c : Network} (h1 : dir_preserved a b)
    (h2 : dir_preserved b c) : dir_preserved a c := by
  intro j jn v hj hv
  obtain ⟨jn', hj', hv'⟩ := h1 j jn v hj hv
  exact h2 j jn' v hj' hv'

theorem add_junction_dir_preserved (net : Network) (p : Vec2) :
    dir_preserved net (add_junction net p).1 := by
  intro j jn v hj hv
  refine ⟨jn, ?_, hv⟩
  unfold add_junction
  dsimp only
  rw [List.getElem?_append_left (List.getElem?_eq_some_iff.mp hj).1]
  exact hj

theorem set_junction_direction_dir_preserved (net : Network) (j0 : ℕ) (d : Vec2)
    (hnone : ∀ jn : Junction, net.junctions[j0]? = some jn → jn.direction = none) :
    dir_preserved net (set_junction_direction net j0 d) := by
  intro j jn v hj hv
  unfold set_junction_direction
  cases hjj : net.junctions[j0]? with
  | none => exact ⟨jn, hj, hv⟩
  | some jn0 =>
      dsimp only
      by_cases hj0 : j = j0
      · subst hj0
        rw [hnone jn hj] at hv
        exact absurd hv (by simp)
      · refine ⟨jn, ?_, hv⟩
        rw [List.getElem?_set_ne (fun hc => hj0 hc.symm)]
        exact hj

theorem get_or_insert_direction_dir_preserved (net : Network) (j0 : ℕ) (d : Vec2) :
    dir_preserved net (get_or_insert_direction net j0 d) := by
  intro j jn v hj hv
  unfold get_or_insert_direction
  cases hjj : net.junctions[j0]? with
  | none => exact ⟨jn, hj, hv⟩
  | some jn0 =>
      dsimp only
      cases hd0 : jn0.direction with
      | some w => exact ⟨jn, hj, hv⟩
      | none =>
          dsimp only
          by_cases hj0 : j = j0
          · subst hj0
            rw [hj] at hjj
            have heq : jn = jn0 := Option.some.inj hjj
            rw [heq, hd0] at hv
            exact absurd hv (by simp)
          · refine ⟨jn, ?_, hv⟩
            rw [List.getElem?_set_ne (fun hc => hj0 hc.symm)]
            exact hj

theorem add_track_segment_dir_preserved {net : Network} {a b : ℕ}
    {sh : TrackShape} {net2 : Network} {tid : ℕ}
    (h : add_track_segment net a b sh = some (net2, tid)) :
    dir_preserved net net2 := by
  intro j jn v hj hv
  obtain ⟨_, _, _, hpres⟩ := add_track_segment_spec net a b sh net2 tid h
  obtain ⟨jn', hj', _, _, hd'⟩ := hpres j jn hj
  exact ⟨jn', hj', hd' ▸ hv⟩


theorem add_track_dir_preserved {net : Network} {src dst : ℕ} {shape : TrackShape}
    {net2 : Network} {tid : ℕ}
    (h : add_track net src dst shape = some (net2, tid)) : dir_preserved net net2 := by
  unfold add_track at h
  dsimp only [] at h
  cases hseg : add_track_segs shape
      (shape.get_length / ((max ⌊shape.get_length / IDEAL_SEGMENT_LENGTH⌋₊ 1 : ℕ) : ℝ))
      (max ⌊shape.get_length / IDEAL_SEGMENT_LENGTH⌋₊ 1) dst
      (List.range (max ⌊shape.get_length / IDEAL_SEGMENT_LENGTH⌋₊ 1)) src none net with
  | none => rw [hseg] at h; simp at h
  | some pr =>
      obtain ⟨net3, first_segment⟩ := pr
      rw [hseg] at h
      cases first_segment with
      | none => exact absurd h (by simp)
      | some f =>
          replace h : some (net3, f) = some (net2, tid) := h
          have hp := Option.some.inj h
          injection hp with e1 e2
          subst e1
          rw [List.range_eq_range'] at hseg
          have hspec := add_track_segs_spec shape
            (shape.get_length / ((max ⌊shape.get_length / IDEAL_SEGMENT_LENGTH⌋₊ 1 : ℕ) : ℝ))
            (max ⌊shape.get_length / IDEAL_SEGMENT_LENGTH⌋₊ 1) dst
            (max ⌊shape.get_length / IDEAL_SEGMENT_LENGTH⌋₊ 1) 0 src net none net3
            (some f) (by omega) (number_of_segments_pos shape) hseg
          intro j jn v hj hv
          obtain ⟨jn', hj', _, hd'⟩ := hspec.2.2.2.2.2.2 j jn hj
          exact ⟨jn', hj', hd' ▸ hv⟩

theorem create_line_dir_preserved {net : Network} {s d : ℕ}
    {net2 : Network} {tid : ℕ}
    (h : create_line net s d = some (net2, tid)) : dir_preserved net net2 := by
  unfold create_line at h
  cases hs : net.junctions[s]? with
  | none => rw [hs] at h; simp at h
  | some source =>
      rw [hs] at h
      cases hd : net.junctions[d]? with
      | none => rw [hd] at h; exact absurd h (by simp)
      | some destination =>
          rw [hd] at h
          dsimp only [] at h
          cases hat : add_track net s d
              (TrackShape.line source.position
                ((destination.position - source.position).normalize)
                (destination.position - source.position).length) with
          | none => rw [hat] at h; simp at h
          | some pr =>
              obtain ⟨net3, track⟩ := pr
              rw [hat] at h
              replace h :
                  some (get_or_insert_direction
                    (get_or_insert_direction net3 s
                      ((destination.position - source.position).normalize)) d
                      ((destination.position - source.position).normalize), track) =
                    some (net2, tid) := h
              have hp := Option.some.inj h
              injection hp with e1 e2
              subst e1
              exact dir_preserved_trans (add_track_dir_preserved hat)
                (dir_preserved_trans
                  (get_or_insert_direction_dir_preserved net3 s _)
                  (get_or_insert_direction_dir_preserved _ d _))


theorem connect_track_dir_preserved : ∀ (fuel : ℕ) (net : Network) (s d : ℕ)
    (net2 : Network) (tid : ℕ),
    connect_track fuel net s d = some (net2, tid) → dir_preserved net net2
  | 0, net, s, d, net2, tid, h => absurd h (by simp [connect_track])
  | Nat.succ fuel, net, s, d, net2, tid, h => by
      unfold connect_track at h
      cases hs : net.junctions[s]? with
      | none => rw [hs] at h; simp at h
      | some source =>
          rw [hs] at h
          cases hd : net.junctions[d]? with
          | none => rw [hd] at h; exact absurd h (by simp)
          | some destiation =>
              rw [hd] at h
              dsimp only [] at h
              cases hsd : source.direction with
              | none =>
                  rw [hsd] at h
                  cases hdd : destiation.direction with
                  | none =>
                      rw [hdd] at h
                      dsimp only [] at h
                      exact create_line_dir_preserved h
                  | some ddir =>
                      rw [hdd] at h
                      dsimp only [] at h
                      have hnone : ∀ jn : Junction, net.junctions[s]? = some jn →
                          jn.direction = none := by
                        intro jn hjn
                        rw [hs] at hjn
                        rw [← Option.some.inj hjn]
                        exact hsd
                      exact dir_preserved_trans
                        (set_junction_direction_dir_preserved net s _ hnone)
                        (add_track_dir_preserved h)
              | some sdir =>
                  rw [hsd] at h
                  cases hdd : destiation.direction with
                  | none =>
                      rw [hdd] at h
                      dsimp only [] at h
                      have hnone : ∀ jn : Junction, net.junctions[d]? = some jn →
                          jn.direction = none := by
                        intro jn hjn
                        rw [hd] at hjn
                        rw [← Option.some.inj hjn]
                        exact hdd
                      exact dir_preserved_trans
                        (set_junction_direction_dir_preserved net d _ hnone)
                        (add_track_dir_preserved h)
                  | some ddir =>
                      rw [hdd] at h
                      dsimp only [] at h
                      cases hmp : s_curve_midpoints source.position sdir
                          destiation.position ddir with
                      | none => rw [hmp] at h; simp at h
                      | some mp =>
                          obtain ⟨m1, m2⟩ := mp
                          rw [hmp] at h
                          dsimp only [] at h
                          cases hc1 : connect_track fuel
                              (add_junction (add_junction net m1).1 m2).1 s
                              (add_junction net m1).2 with
                          | none => rw [hc1] at h; simp at h
                          | some pr3 =>
                              obtain ⟨net3, t3⟩ := pr3
                              rw [hc1] at h
                              dsimp only [] at h
                              cases hc2 : connect_track fuel net3
                                  (add_junction (add_junction net m1).1 m2).2 d with
                              | none => rw [hc2] at h; simp at h
                              | some pr4 =>
                                  obtain ⟨net4, t4⟩ := pr4
                                  rw [hc2] at h
                                  dsimp only [] at h
                                  refine dir_preserved_trans
                                    (add_junction_dir_preserved net m1)
                                    (dir_preserved_trans
                                      (add_junction_dir_preserved _ m2)
                                      (dir_preserved_trans
                                        (connect_track_dir_preserved fuel _ _ _ _ _ hc1)
                                        (dir_preserved_trans
                                          (connect_track_dir_preserved fuel _ _ _ _ _ hc2)
                                          (create_line_dir_preserved h))))

theorem add_station_dir_preserved {net : Network} {p : Vec2} {len ang : ℝ}
    {net2 : Network} {sid : ℕ}
    (h : add_station net p len ang = some (net2, sid)) : dir_preserved net net2 := by
  unfold add_station at h
  dsimp only [] at h
  cases hat : add_track (add_junction (add_junction net p).1
        (p + len • Vec2.from_angle ang)).1
      (add_junction net p).2
      (add_junction (add_junction net p).1 (p + len • Vec2.from_angle ang)).2
      (TrackShape.line p (Vec2.from_angle ang) len) with
  | none => rw [hat] at h; simp at h
  | some pr =>
      obtain ⟨net3, segment⟩ := pr
      rw [hat] at h
      replace h : some
          (({ net3 with stations := net3.stations ++
              [{ position := p, length := len, track := segment, angle := ang }] }
            : Network), net.stations.length) = some (net2, sid) := h
      have hp := Option.some.inj h
      injection hp with e1 e2
      subst e1
      refine dir_preserved_trans (add_junction_dir_preserved net p)
        (dir_preserved_trans (add_junction_dir_preserved _ _)
          (dir_preserved_trans (add_track_dir_preserved hat) ?_))
      intro j jn v hj hv
      exact ⟨jn, hj, hv⟩

theorem apply_op_dir_preserved {net net2 : Network} {op : Op}
    (h : apply_op net op = some net2) : dir_preserved net net2 := by
  cases op with
  | add_junction p =>
      have : net2 = (add_junction net p).1 := (Option.some.inj h).symm
      subst this
      exact add_junction_dir_preserved net p
  | create_line s d =>
      obtain ⟨pr, hpr, he⟩ := Option.map_eq_some'.mp h
      subst he
      exact create_line_dir_preserved (hpr.trans (congrArg some (Prod.mk.eta).symm))
  | connect_track s d =>
      obtain ⟨pr, hpr, he⟩ := Option.map_eq_some'.mp h
      subst he
      exact connect_track_dir_preserved 2 net s d pr.1 pr.2
        (hpr.trans (congrArg some (Prod.mk.eta).symm))
  | add_track s d shape =>
      obtain ⟨pr, hpr, he⟩ := Option.map_eq_some'.mp h
      subst he
      exact add_track_dir_preserved (hpr.trans (congrArg some (Prod.mk.eta).symm))
  | add_station p len ang =>
      obtain ⟨pr, hpr, he⟩ := Option.map_eq_some'.mp h
      subst he
      exact add_station_dir_preserved (hpr.trans (congrArg some (Prod.mk.eta).symm))

theorem apply_ops_dir_preserved : ∀ (ops : List Op) (net net2 : Network),
    apply_ops net ops = some net2 → dir_preserved net net2
  | [], net, net2, h => by
      have : net = net2 := Option.some.inj h
      subst this
      exact dir_preserved_refl net
  | op :: ops, net, net2, h => by
      unfold apply_ops at h
      cases h1 : apply_op net op with
      | none => rw [h1] at h; simp at h
      | some mid =>
          rw [h1] at h
          dsimp only [] at h
          exact dir_preserved_trans (apply_op_dir_preserved h1)
            (apply_ops_dir_preserved ops mid net2 h)

def c4_network : Network :=
  { tracks := [], trains := [], stations := [],
    junctions := [Junction.mk 0 ⟨0, 0⟩ Minivec.new Minivec.new (some ⟨1, 0⟩)] }

/-- Claim C4: junction direction is first-write-wins.  For every sequence of
construction operations (`add_junction`, `create_line`, `connect_track`,
`add_track`, `add_station`) executed from any starting network, once a
junction's `direction` field holds `some v`, every later operation leaves it
equal to `v`: it is never overwritten. -/
theorem C4_first_write_wins (net : Network) (ops : List Op) (net2 : Network)
    (h : apply_ops net ops = some net2)
    (j : ℕ) (jn : Junction) (v : Vec2)
    (hj : net.junctions[j]? = some jn) (hv : jn.direction = some v) :
    ∃ jn2 : Junction, net2.junctions[j]? = some jn2 ∧ jn2.direction = some v :=
  apply_ops_dir_preserved ops net net2 h j jn v hj hv

/-- Witness for C4: a network whose junction 0 already has direction `(1,0)`,
after an `add_junction` operation, still has direction `(1,0)`. -/
theorem C4_first_write_wins_witness :
    ∃ jn2 : Junction,
      ((add_junction c4_network ⟨3, 4⟩).1).junctions[0]? = some jn2 ∧
        jn2.direction = some ⟨1, 0⟩ :=
  C4_first_write_wins c4_network [Op.add_junction ⟨3, 4⟩]
    (add_junction c4_network ⟨3, 4⟩).1 rfl
    0 (Junction.mk 0 ⟨0, 0⟩ Minivec.new Minivec.new (some ⟨1, 0⟩)) ⟨1, 0⟩ rfl rfl

def c3_sp : Vec2 := ⟨0, 0⟩

def c3_dp : Vec2 := ⟨30, 24⟩

def c3_dir : Vec2 := ⟨1, 0⟩

def c3_m1 : Vec2 := ⟨32/17, 8/17⟩

def c3_m2 : Vec2 := ⟨478/17, 400/17⟩

theorem c3_cand_mm : s_curve_candidate c3_sp c3_dir c3_dp c3_dir (-1) (-1) = none := by
  unfold s_curve_candidate
  simp only [c3_sp, c3_dir, c3_dp]
  split
  · next h =>
      exfalso
      obtain ⟨hA, -, -⟩ := h
      simp only [Vec2.dot, Vec2.perp, Vec2.normalize, Vec2.length, MAX_RADIUS,
        Vec2.smul_x, Vec2.smul_y, Vec2.add_x, Vec2.add_y, Vec2.sub_x, Vec2.sub_y] at hA
      norm_num at hA
      ring_nf at hA
      norm_num at hA
  · rfl


theorem c3_cand_mp : s_curve_candidate c3_sp c3_dir c3_dp c3_dir (-1) 1 = none := by
  unfold s_curve_candidate
  simp only [c3_sp, c3_dir, c3_dp]
  split
  · next h =>
      exfalso
      obtain ⟨hA, -, -⟩ := h
      simp only [Vec2.dot, Vec2.perp, Vec2.normalize, Vec2.length, MAX_RADIUS,
        Vec2.smul_x, Vec2.smul_y, Vec2.add_x, Vec2.add_y, Vec2.sub_x, Vec2.sub_y] at hA
      norm_num at hA
      ring_nf at hA
      have hs : 0 ≤ (Real.sqrt 1924)⁻¹ := inv_nonneg.mpr (Real.sqrt_nonneg _)
      nlinarith [hA, hs]
  · rfl


theorem sqrt_1156 : Real.sqrt 1156 = 34 := by
  rw [show (1156 : ℝ) = 34 ^ 2 by norm_num, Real.sqrt_sq (by norm_num)]

theorem c3_cand_pm :
    s_curve_candidate c3_sp c3_dir c3_dp c3_dir 1 (-1) = some (c3_m1, c3_m2) := by
  unfold s_curve_candidate
  simp only [c3_sp, c3_dir, c3_dp]
  split
  · next h =>
      simp only [c3_m1, c3_m2, MAX_RADIUS, Vec2.normalize, Vec2.length, Vec2.perp,
        Vec2.smul_x, Vec2.smul_y, Vec2.add_x, Vec2.add_y, Vec2.sub_x, Vec2.sub_y]
      norm_num
      rw [sqrt_1156]
      constructor <;> ext <;> norm_num
  · next h =>
      exfalso
      apply h
      simp only [Vec2.dot, Vec2.perp, Vec2.normalize, Vec2.length, MAX_RADIUS,
        Vec2.smul_x, Vec2.smul_y, Vec2.add_x, Vec2.add_y, Vec2.sub_x, Vec2.sub_y]
      norm_num
      rw [sqrt_1156]
      norm_num


theorem c3_midpoints :
    s_curve_midpoints c3_sp c3_dir c3_dp c3_dir = some (c3_m1, c3_m2) := by
  unfold s_curve_midpoints
  rw [c3_cand_mm, c3_cand_mp, c3_cand_pm]
  rfl


theorem remEuclid_eq_self {a b : ℝ} (h0 : 0 ≤ a) (hb : 0 < b) (hab : a < b) :
    remEuclid a b = a := by
  unfold remEuclid
  have h : ⌊a / b⌋ = 0 := by
    rw [Int.floor_eq_zero_iff]
    constructor
    · positivity
    · rw [div_lt_one hb]; exact hab
  rw [h]
  ring

theorem arg_mk_zero_neg {r : ℝ} (hr : 0 < r) :
    Complex.arg ⟨0, -r⟩ = -(Real.pi / 2) := by
  have h : (⟨0, -r⟩ : ℂ) = (r : ℂ) * -Complex.I := by
    apply Complex.ext <;> simp
  rw [h, Complex.arg_real_mul _ hr, Complex.arg_neg_I]

theorem arg_c3_final : Complex.arg ⟨32 / 17, -60 / 17⟩ = -Real.arcsin (15 / 17) := by
  have habs : Complex.abs ⟨32 / 17, -60 / 17⟩ = 4 := by
    rw [Complex.abs_apply, Complex.normSq_mk]
    rw [show (32 / 17 : ℝ) * (32 / 17) + -60 / 17 * (-60 / 17) = 4 ^ 2 by norm_num]
    exact Real.sqrt_sq (by norm_num)
  rw [Complex.arg_of_re_nonneg (by norm_num), habs]
  rw [show (Complex.mk (32 / 17) (-60 / 17)).im = -60 / 17 by rfl]
  rw [show (-60 / 17 : ℝ) / 4 = -(15 / 17) by norm_num]
  exact Real.arcsin_neg (15 / 17)



def c3_arc : TrackShape := TrackShape.from_source_direction_dest c3_sp c3_dir c3_m1

theorem c3_srad : claim_signed_radius c3_sp c3_dir c3_m1 = 4 := by
  unfold claim_signed_radius
  simp only [c3_sp, c3_dir, c3_m1, Vec2.perp, Vec2.dot, Vec2.sub_x, Vec2.sub_y]
  norm_num

theorem c3_center : claim_center c3_sp c3_dir c3_m1 = ⟨0, 4⟩ := by
  unfold claim_center
  rw [c3_srad]
  ext <;> simp [c3_sp, c3_dir, Vec2.perp]

theorem c3_initial_angle : Vec2.to_angle (c3_sp - ⟨0, 4⟩) = -(Real.pi / 2) := by
  unfold Vec2.to_angle
  rw [show (Complex.mk (c3_sp - ⟨0, 4⟩).x (c3_sp - ⟨0, 4⟩).y : ℂ) = ⟨0, -4⟩ by
    apply Complex.ext <;> norm_num [c3_sp]]
  exact arg_mk_zero_neg (by norm_num)

theorem c3_final_angle : Vec2.to_angle (c3_m1 - ⟨0, 4⟩) = -Real.arcsin (15 / 17) := by
  unfold Vec2.to_angle
  rw [show (Complex.mk (c3_m1 - ⟨0, 4⟩).x (c3_m1 - ⟨0, 4⟩).y : ℂ) = ⟨32 / 17, -60 / 17⟩ by
    apply Complex.ext <;> norm_num [c3_m1]]
  exact arg_c3_final

theorem c3_span : claim_span c3_sp c3_dir c3_m1 = Real.arccos (15 / 17) := by
  unfold claim_span
  rw [c3_srad, c3_center]
  dsimp only []
  rw [c3_initial_angle, c3_final_angle]
  rw [if_neg (by norm_num)]
  rw [show -Real.arcsin (15 / 17) - -(Real.pi / 2) = Real.arccos (15 / 17) by
    rw [Real.arccos_eq_pi_div_two_sub_arcsin]; ring]
  exact remEuclid_eq_self (Real.arccos_nonneg _) TAU_pos
    (by
      have h1 := Real.arccos_le_pi (15 / 17 : ℝ)
      have h2 := Real.pi_pos
      unfold TAU
      linarith)

theorem c3_arc_eq :
    c3_arc = TrackShape.arc (-(Real.pi / 2)) (Real.arccos (15 / 17)) 4 ⟨0, 4⟩ := by
  have h := (fsdd_cases c3_sp c3_dir c3_m1).2 (by
    simp only [c3_sp, c3_dir, c3_m1, Vec2.perp, Vec2.dot, Vec2.sub_x, Vec2.sub_y]
    rw [show ((32 / 17 - 0) * -0 + (8 / 17 - 0) * 1 : ℝ) = 8 / 17 by norm_num]
    rw [abs_of_nonneg (by norm_num : (0:ℝ) ≤ 8 / 17)]
    norm_num)
  unfold c3_arc
  rw [h, c3_srad, c3_center, c3_initial_angle, c3_span]
  norm_num


theorem c3_arc_end_dir :
    Vec2.from_angle ((c3_arc.get_transform_at_distance c3_arc.get_length).2) =
      ⟨15 / 17, 8 / 17⟩ := by
  rw [c3_arc_eq]
  simp only [TrackShape.get_length, TrackShape.get_transform_at_distance]
  rw [rsignum_of_nonneg (Real.arccos_nonneg _)]
  rw [abs_of_nonneg (mul_nonneg (Real.arccos_nonneg _) (by norm_num : (0:ℝ) ≤ 4))]
  rw [show Real.arccos (15 / 17) * 4 * 1 / 4 + -(Real.pi / 2) + Real.pi / 2 * 1 =
      Real.arccos (15 / 17) by ring]
  unfold Vec2.from_angle
  ext
  · show Real.cos (Real.arccos (15 / 17)) = 15 / 17
    exact Real.cos_arccos (by norm_num) (by norm_num)
  · show Real.sin (Real.arccos (15 / 17)) = 8 / 17
    rw [Real.sin_arccos]
    rw [show 1 - (15 / 17 : ℝ) ^ 2 = (8 / 17) ^ 2 by norm_num]
    exact Real.sqrt_sq (by norm_num)

def c3_mid_line : TrackShape :=
  TrackShape.line c3_m1 (c3_m2 - c3_m1).normalize (c3_m2 - c3_m1).length

theorem c3_mid_length : (c3_m2 - c3_m1).length = Real.sqrt 1220 := by
  unfold Vec2.length
  rw [show ((c3_m2 - c3_m1).x ^ 2 + (c3_m2 - c3_m1).y ^ 2 : ℝ) = 1220 by
    simp [c3_m1, c3_m2]; norm_num]

theorem inv_sqrt_1220 : (Real.sqrt 1220)⁻¹ = Real.sqrt 1220 / 1220 := by
  rw [eq_div_iff (by norm_num : (1220 : ℝ) ≠ 0)]
  nth_rewrite 2 [show (1220 : ℝ) = Real.sqrt 1220 * Real.sqrt 1220 from
    (Real.mul_self_sqrt (by norm_num)).symm]
  rw [inv_mul_cancel_left₀ (by positivity : Real.sqrt 1220 ≠ 0)]

theorem c3_line_dir :
    Vec2.from_angle ((c3_mid_line.get_transform_at_distance 0).2) =
      ⟨446 / 17 / Real.sqrt 1220, 392 / 17 / Real.sqrt 1220⟩ := by
  have hhead : (c3_mid_line.get_transform_at_distance 0).2 =
      Complex.arg ⟨446 / 17, 392 / 17⟩ := by
    unfold c3_mid_line
    simp only [TrackShape.get_transform_at_distance]
    unfold Vec2.to_angle Vec2.normalize
    rw [c3_mid_length]
    rw [show (Complex.mk ((Real.sqrt 1220)⁻¹ • (c3_m2 - c3_m1)).x
          ((Real.sqrt 1220)⁻¹ • (c3_m2 - c3_m1)).y : ℂ) =
        (((Real.sqrt 1220)⁻¹ : ℝ) : ℂ) * ⟨446 / 17, 392 / 17⟩ by
      apply Complex.ext <;>
        simp [c3_m1, c3_m2, Complex.mul_re, Complex.mul_im] <;> norm_num <;>
        exact inv_sqrt_1220]
    exact Complex.arg_real_mul _ (by positivity)
  rw [hhead]
  have habs : Complex.abs ⟨446 / 17, 392 / 17⟩ = Real.sqrt 1220 := by
    rw [Complex.abs_apply, Complex.normSq_mk]
    rw [show (446 / 17 : ℝ) * (446 / 17) + 392 / 17 * (392 / 17) = 1220 by norm_num]
  have hne : (⟨446 / 17, 392 / 17⟩ : ℂ) ≠ 0 := by
    intro h0
    have h1 := congrArg Complex.re h0
    norm_num at h1
  unfold Vec2.from_angle
  ext
  · show Real.cos _ = _
    rw [Complex.cos_arg hne, habs]
  · show Real.sin _ = _
    rw [Complex.sin_arg, habs]


theorem c3_heading_gap :
    ¬ (⟨15 / 17, 8 / 17⟩ : Vec2).distance
        ⟨446 / 17 / Real.sqrt 1220, 392 / 17 / Real.sqrt 1220⟩ < 0.01 := by
  unfold Vec2.distance Vec2.length
  push_neg
  simp only [Vec2.sub_x, Vec2.sub_y]
  have hsq : Real.sqrt 1220 ^ 2 = 1220 := Real.sq_sqrt (by norm_num)
  have hs0 : (0 : ℝ) < Real.sqrt 1220 := by positivity
  have hs1 : (34.9 : ℝ) ≤ Real.sqrt 1220 := by
    rw [Real.le_sqrt (by norm_num) (by norm_num)]
    norm_num
  have ht0 : (0 : ℝ) ≤ (Real.sqrt 1220)⁻¹ := inv_nonneg.mpr hs0.le
  have ht : (Real.sqrt 1220)⁻¹ ≤ 1 / 34.9 := by
    rw [show (1 / 34.9 : ℝ) = (34.9 : ℝ)⁻¹ by norm_num]
    exact inv_le_inv_of_le (by norm_num) hs1
  have ht2 : ((Real.sqrt 1220)⁻¹) ^ 2 = (1220 : ℝ)⁻¹ := by
    rw [inv_pow, hsq]
  rw [show (0.01 : ℝ) = 1 / 100 by norm_num]
  rw [Real.le_sqrt (by norm_num) (by positivity)]
  rw [div_div, div_div, div_eq_mul_inv (446 : ℝ), div_eq_mul_inv (392 : ℝ)]
  rw [show ((17 : ℝ) * Real.sqrt 1220)⁻¹ = 17⁻¹ * (Real.sqrt 1220)⁻¹ by
    rw [mul_inv]]
  nlinarith [ht, ht0, ht2]


/-- Claim C3 (code bug): the correctness invariant `assert_correctness` states
that every track's initial heading matches its source junction's established
direction within `0.01`, but the assertion body is dead code behind an
unconditional early `return`, and `generate_network`'s cross-ring
`connect_track` calls do violate it.  This theorem isolates the violating
mechanism on a cleaned-up instance of the both-directions bend: for source
`(0,0)` heading `(1,0)` and destination `(30,24)` heading `(1,0)`, the solver
selects the mixed-sign candidate `(sign_1, sign_2) = (1, -1)` with midpoints
`m1 = (32/17, 8/17)` and `m2 = (478/17, 400/17)`; the first bend's arc ends at
`m1` with tangent `(15/17, 8/17)`, which becomes the midpoint junction's
direction, yet the straight connector that `create_line` then lays from `m1`
to `m2` leaves `m1` with a heading at least `0.01` away from that direction,
so the (disabled) assertion would fail. -/
theorem C3_bend_heading_violation :
    s_curve_midpoints c3_sp c3_dir c3_dp c3_dir = some (c3_m1, c3_m2) ∧
    ¬ (Vec2.from_angle ((c3_arc.get_transform_at_distance c3_arc.get_length).2)).distance
        (Vec2.from_angle ((c3_mid_line.get_transform_at_distance 0).2)) < 0.01 :=
  ⟨c3_midpoints, by rw [c3_arc_end_dir, c3_line_dir]; exact c3_heading_gap⟩

theorem update_one_cases (rng : ℕ → ℕ) (dt : ℝ) (i : ℕ) (net net2 : Network)
    (h : update_one rng dt i net = some net2) :
    ∃ train track, net.trains[i]? = some train ∧
      net.tracks[train.track]? = some track ∧
      ((¬ train.distance + dt * 8 > |track.length| ∧
        net2 = { net with
          trains := net.trains.set i
            { train with distance := train.distance + dt * 8 } }) ∨
       (train.distance + dt * 8 > |track.length| ∧
        ∃ next_track_id next_track junction,
          net.junctions[track.destiation]? = some junction ∧
          junction.exits.get (rng i % junction.exits.length) = some next_track_id ∧
          net.tracks[next_track_id]? = some next_track ∧
          net2 = { net with
            tracks := net.tracks.set next_track_id
              { next_track with trains := next_track.trains ++ [train.id] },
            trains := net.trains.set i
              { train with
                  distance := frem (train.distance + dt * 8) |track.length|,
                  track := next_track.id } })) := by
  unfold update_one at h
  split at h
  · exact absurd h (by simp)
  next train htr =>
    split at h
    · exact absurd h (by simp)
    next track htk =>
      refine ⟨train, track, htr, htk, ?_⟩
      split at h
      next hw =>
        right
        refine ⟨hw, ?_⟩
        split at h
        · exact absurd h (by simp)
        next junction hjn =>
          split at h
          · exact absurd h (by simp)
          next hex =>
            split at h
            · exact absurd h (by simp)
            next next_track_id hget =>
              split at h
              · exact absurd h (by simp)
              next next_track hntk =>
                exact ⟨next_track_id, next_track, junction, hjn, hget, hntk,
                  (Option.some.inj h).symm⟩
      next hw =>
        left
        exact ⟨hw, (Option.some.inj h).symm⟩


theorem update_one_frame (rng : ℕ → ℕ) (dt : ℝ) (i : ℕ) (net net2 : Network)
    (h : update_one rng dt i net = some net2) :
    net2.junctions = net.junctions ∧ net2.stations = net.stations ∧
    net2.trains.length = net.trains.length ∧
    (∀ j : ℕ, (net2.trains[j]?).map Train.id = (net.trains[j]?).map Train.id) ∧
    (∀ j : ℕ, j ≠ i → net2.trains[j]? = net.trains[j]?) ∧
    net2.tracks.length = net.tracks.length ∧
    (∀ (t : ℕ) (tk : Track), net.tracks[t]? = some tk →
      ∃ (tk' : Track) (ap : List ℕ), net2.tracks[t]? = some tk' ∧
      tk'.id = tk.id ∧ tk'.source = tk.source ∧ tk'.destiation = tk.destiation ∧
      tk'.length = tk.length ∧ tk'.shape = tk.shape ∧
      tk'.trains = tk.trains ++ ap) := by
  obtain ⟨train, track, htr, htk, hcase⟩ := update_one_cases rng dt i net net2 h
  have hilen : i < net.trains.length := (List.getElem?_eq_some_iff.mp htr).1
  rcases hcase with ⟨hw, rfl⟩ | ⟨hw, ntid, ntk, jn, hjn, hget, hntk, rfl⟩
  · refine ⟨rfl, rfl, by simp, ?_, ?_, by simp, ?_⟩
    · intro j
      by_cases hj : j = i
      · subst hj
        simp [List.getElem?_set_self hilen, htr]
      · simp [List.getElem?_set_ne (fun hc => hj hc.symm)]
    · intro j hj
      simp [List.getElem?_set_ne (fun hc => hj hc.symm)]
    · intro t tk htk2
      exact ⟨tk, [], by simpa using htk2, rfl, rfl, rfl, rfl, rfl, by simp⟩
  · have hntlen : ntid < net.tracks.length := (List.getElem?_eq_some_iff.mp hntk).1
    refine ⟨rfl, rfl, by simp, ?_, ?_, by simp, ?_⟩
    · intro j
      by_cases hj : j = i
      · subst hj
        simp [List.getElem?_set_self hilen, htr]
      · simp [List.getElem?_set_ne (fun hc => hj hc.symm)]
    · intro j hj
      simp [List.getElem?_set_ne (fun hc => hj hc.symm)]
    · intro t tk htk2
      by_cases ht : t = ntid
      · subst ht
        have heq : tk = ntk := by
          rw [htk2] at hntk
          exact Option.some.inj hntk
        subst heq
        exact ⟨{ tk with trains := tk.trains ++ [train.id] }, [train.id],
          by simp [List.getElem?_set_self hntlen], rfl, rfl, rfl, rfl, rfl, rfl⟩
      · exact ⟨tk, [], by simp [List.getElem?_set_ne (fun hc => ht hc.symm), htk2],
          rfl, rfl, rfl, rfl, rfl, by simp⟩

theorem update_fold_frame (rng : ℕ → ℕ) (dt : ℝ) :
    ∀ (idxs : List ℕ) (net net' : Network),
      idxs.foldlM (fun n i => update_one rng dt i n) net = some net' →
      net'.junctions = net.junctions ∧ net'.stations = net.stations ∧
      net'.trains.length = net.trains.length ∧
      (∀ j : ℕ, (net'.trains[j]?).map Train.id = (net.trains[j]?).map Train.id) ∧
      (∀ j : ℕ, j ∉ idxs → net'.trains[j]? = net.trains[j]?) ∧
      net'.tracks.length = net.tracks.length ∧
      (∀ (t : ℕ) (tk : Track), net.tracks[t]? = some tk →
        ∃ (tk' : Track) (ap : List ℕ), net'.tracks[t]? = some tk' ∧
        tk'.id = tk.id ∧ tk'.source = tk.source ∧ tk'.destiation = tk.destiation ∧
        tk'.length = tk.length ∧ tk'.shape = tk.shape ∧
        tk'.trains = tk.trains ++ ap)
  | [], net, net', h => by
      simp only [List.foldlM_nil] at h
      have : net = net' := by simpa using h
      subst this
      refine ⟨rfl, rfl, rfl, fun j => rfl, fun j _ => rfl, rfl, ?_⟩
      intro t tk htk
      exact ⟨tk, [], htk, rfl, rfl, rfl, rfl, rfl, by simp⟩
  | i :: rest, net, net', h => by
      simp only [List.foldlM_cons] at h
      cases h1 : update_one rng dt i net with
      | none => rw [h1] at h; simp at h
      | some mid =>
          rw [h1] at h
          obtain ⟨j1, s1, tl1, ids1, un1, kl1, tk1⟩ :=
            update_one_frame rng dt i net mid h1
          obtain ⟨j2, s2, tl2, ids2, un2, kl2, tk2⟩ :=
            update_fold_frame rng dt rest mid net' h
          refine ⟨j2.trans j1, s2.trans s1, tl2.trans tl1,
            fun j => (ids2 j).trans (ids1 j), ?_, kl2.trans kl1, ?_⟩
          · intro j hj
            have hji : j ≠ i := fun hc => hj (by simp [hc])
            have hjr : j ∉ rest := fun hc => hj (by simp [hc])
            exact (un2 j hjr).trans (un1 j hji)
          · intro t tk htk
            obtain ⟨tkm, ap1, hm, e1, e2, e3, e4, e5, e6⟩ := tk1 t tk htk
            obtain ⟨tkf, ap2, hf, f1, f2, f3, f4, f5, f6⟩ := tk2 t tkm hm
            refine ⟨tkf, ap1 ++ ap2, hf, f1.trans e1, f2.trans e2, f3.trans e3,
              f4.trans e4, f5.trans e5, ?_⟩
            rw [f6, e6, List.append_assoc]


theorem update_fold_nowrap (rng : ℕ → ℕ) (dt : ℝ) (net : Network)
    (hnw : ∀ (i : ℕ) (tr : Train) (tk : Track), net.trains[i]? = some tr →
      net.tracks[tr.track]? = some tk → ¬ tr.distance + dt * 8 > |tk.length|) :
    ∀ (m k : ℕ) (cur net' : Network),
      (List.range' k m).foldlM (fun n i => update_one rng dt i n) cur = some net' →
      cur.tracks = net.tracks →
      (∀ j : ℕ, j < k → cur.trains[j]? =
        (net.trains[j]?).map (fun tr => { tr with distance := tr.distance + dt * 8 })) →
      (∀ j : ℕ, k ≤ j → cur.trains[j]? = net.trains[j]?) →
      net'.tracks = net.tracks ∧
      (∀ j : ℕ, j < k + m → net'.trains[j]? =
        (net.trains[j]?).map (fun tr => { tr with distance := tr.distance + dt * 8 })) ∧
      (∀ j : ℕ, k + m ≤ j → net'.trains[j]? = net.trains[j]?)
  | 0, k, cur, net', h, hcur, hlt, hge => by
      have hnil : List.range' k 0 = [] := rfl
      rw [hnil, List.foldlM_nil] at h
      have hcn : cur = net' := by simpa using h
      subst hcn
      exact ⟨hcur, fun j hj => hlt j (by omega), fun j hj => hge j (by omega)⟩
  | Nat.succ m, k, cur, net', h, hcur, hlt, hge => by
      rw [List.range'_succ, List.foldlM_cons] at h
      cases h1 : update_one rng dt k cur with
      | none => rw [h1] at h; simp at h
      | some mid =>
          rw [h1] at h
          obtain ⟨train, track, htr, htk, hcase⟩ := update_one_cases rng dt k cur mid h1
          have htrn : net.trains[k]? = some train := ((hge k le_rfl).symm).trans htr
          have htkn : net.tracks[train.track]? = some track := by rw [← hcur]; exact htk
          have hnw1 := hnw k train track htrn htkn
          rcases hcase with ⟨_, rfl⟩ | ⟨hw, _⟩
          · have hklen : k < cur.trains.length := (List.getElem?_eq_some_iff.mp htr).1
            have ih := update_fold_nowrap rng dt net hnw m (k + 1) _ net' h
              (by simpa using hcur) ?_ ?_
            · exact ⟨ih.1, fun j hj => ih.2.1 j (by omega),
                fun j hj => ih.2.2 j (by omega)⟩
            · intro j hj
              by_cases hjk : j = k
              · subst hjk
                dsimp only
                simp only [List.getElem?_set_self hklen]
                simp [htrn]
              · have hjlt : j < k := by omega
                dsimp only
                rw [List.getElem?_set_ne (fun hc => hjk hc.symm)]
                exact hlt j hjlt
            · intro j hj
              have hjk : j ≠ k := by omega
              dsimp only
              rw [List.getElem?_set_ne (fun hc => hjk hc.symm)]
              exact hge j (by omega)
          · exact absurd hw hnw1


theorem not_mem_range'_lo {i s n : ℕ} (h : i < s) : i ∉ List.range' s n := by
  intro hmem
  obtain ⟨j, _, hji⟩ := List.mem_range'.mp hmem
  omega

theorem not_mem_range'_hi {i s n : ℕ} (h : s + n ≤ i) : i ∉ List.range' s n := by
  intro hmem
  obtain ⟨j, hj, hji⟩ := List.mem_range'.mp hmem
  omega

theorem update_wrap_appends (net : Network) (dt : ℝ) (rng : ℕ → ℕ) (net' : Network)
    (h : update net dt rng = some net')
    (hid : ∀ (t : ℕ) (tk : Track), net.tracks[t]? = some tk → tk.id = t)
    (i : ℕ) (tr : Train) (tk : Track)
    (htr : net.trains[i]? = some tr) (htk : net.tracks[tr.track]? = some tk)
    (hw : tr.distance + dt * 8 > |tk.length|) :
    ∃ tr' : Train, net'.trains[i]? = some tr' ∧ tr'.id = tr.id ∧
      ∃ tk' : Track, net'.tracks[tr'.track]? = some tk' ∧ tr.id ∈ tk'.trains := by
  have hilen : i < net.trains.length := (List.getElem?_eq_some_iff.mp htr).1
  unfold update at h
  rw [List.range_eq_range'] at h
  have e2 : net.trains.length - i + i = net.trains.length := by omega
  have hsplit : List.range' 0 net.trains.length =
      List.range' 0 i ++ List.range' i (net.trains.length - i) := by
    calc List.range' 0 net.trains.length
        = List.range' 0 (net.trains.length - i + i) := by rw [e2]
      _ = List.range' 0 i ++ List.range' (0 + i) (net.trains.length - i) :=
          (List.range'_append_1 _ _ _).symm
      _ = List.range' 0 i ++ List.range' i (net.trains.length - i) := by norm_num
  rw [hsplit, List.foldlM_append] at h
  cases h1 : (List.range' 0 i).foldlM (fun n j => update_one rng dt j n) net with
  | none => rw [h1] at h; simp at h
  | some mid1 =>
      rw [h1] at h
      replace h : (List.range' i (net.trains.length - i)).foldlM
          (fun n j => update_one rng dt j n) mid1 = some net' := h
      have hm : net.trains.length - i = (net.trains.length - i - 1) + 1 := by omega
      rw [hm, List.range'_succ, List.foldlM_cons] at h
      cases h2 : update_one rng dt i mid1 with
      | none => rw [h2] at h; simp at h
      | some mid2 =>
          rw [h2] at h
          replace h : (List.range' (i + 1) (net.trains.length - i - 1)).foldlM
              (fun n j => update_one rng dt j n) mid2 = some net' := h
          obtain ⟨j1, s1, tl1, ids1, un1, kl1, tks1⟩ :=
            update_fold_frame rng dt (List.range' 0 i) net mid1 h1
          have hmid1tr : mid1.trains[i]? = some tr := by
            rw [un1 i (not_mem_range'_hi (by omega))]
            exact htr
          obtain ⟨tkm, ap1, htkm, km_id, km_src, km_dst, km_len, km_shape, km_trains⟩ :=
            tks1 tr.track tk htk
          obtain ⟨train2, track2, htr2, htk2, hcase⟩ :=
            update_one_cases rng dt i mid1 mid2 h2
          have htr2' : train2 = tr := by
            rw [hmid1tr] at htr2
            exact (Option.some.inj htr2).symm
          subst htr2'
          have htk2' : track2 = tkm := by
            rw [htkm] at htk2
            exact (Option.some.inj htk2).symm
          subst htk2'
          rcases hcase with ⟨hnw2, _⟩ | ⟨hw2, ntid, ntk, jn, hjn, hget, hntk, hmid2⟩
          · rw [km_len] at hnw2
            exact absurd hw hnw2
          · have h5 := (List.getElem?_eq_some_iff.mp hntk).1
            have hntlen : ntid < net.tracks.length := by omega
            obtain ⟨tk0, htk0⟩ : ∃ tk0 : Track, net.tracks[ntid]? = some tk0 := by
              rw [List.getElem?_eq_getElem hntlen]
              exact ⟨_, rfl⟩
            have hid0 : tk0.id = ntid := hid ntid tk0 htk0
            obtain ⟨tkm0, ap0, htkm0, m0_id, m0a, m0b, m0c, m0d, m0e⟩ :=
              tks1 ntid tk0 htk0
            have hm0 : tkm0 = ntk := by
              rw [htkm0] at hntk
              exact Option.some.inj hntk
            have hntk_id : ntk.id = ntid := by rw [← hm0, m0_id, hid0]
            subst hmid2
            have hilen1 : i < mid1.trains.length := by omega
            have htr_mid2 :
                ({ mid1 with
                    tracks := mid1.tracks.set ntid
                      { ntk with trains := ntk.trains ++ [train2.id] },
                    trains := mid1.trains.set i
                      { train2 with
                          distance := frem (train2.distance + dt * 8) |track2.length|,
                          track := ntk.id } } : Network).trains[i]? =
                some { train2 with
                        distance := frem (train2.distance + dt * 8) |track2.length|,
                        track := ntk.id } := by
              dsimp only
              rw [List.getElem?_set_self hilen1]
            have htk_mid2 :
                ({ mid1 with
                    tracks := mid1.tracks.set ntid
                      { ntk with trains := ntk.trains ++ [train2.id] },
                    trains := mid1.trains.set i
                      { train2 with
                          distance := frem (train2.distance + dt * 8) |track2.length|,
                          track := ntk.id } } : Network).tracks[ntid]? =
                some { ntk with trains := ntk.trains ++ [train2.id] } := by
              dsimp only
              rw [List.getElem?_set_self h5]
            obtain ⟨j3, s3, tl3, ids3, un3, kl3, tks3⟩ :=
              update_fold_frame rng dt
                (List.range' (i + 1) (net.trains.length - i - 1)) _ net' h
            have htr_fin : net'.trains[i]? =
                some { train2 with
                        distance := frem (train2.distance + dt * 8) |track2.length|,
                        track := ntk.id } := by
              rw [un3 i (not_mem_range'_lo (by omega))]
              exact htr_mid2
            obtain ⟨tkf, apf, htkf, f_id, fa, fb, fc, fd, f_trains⟩ :=
              tks3 ntid _ htk_mid2
            refine ⟨_, htr_fin, rfl, tkf, ?_, ?_⟩
            · show net'.tracks[ntk.id]? = some tkf
              rw [hntk_id]
              exact htkf
            · rw [f_trains]
              simp


/-- C9: a successful `update(delta_time)` (the oracle `rng` stands for the
random choices) leaves every junction and station untouched, keeps the train
count and every train's id, keeps every track's id, endpoints, length and
shape, and only ever APPENDS to a track's train queue (never removes from
the old queue).  When no train's advanced distance strictly exceeds its
track's length, every track — queues included — is left exactly as it was
and the trains merely advance their `distance` by `delta_time * 8`; and on a
network whose track ids match their indices, each train that wraps is
appended to the queue of the (randomly chosen) track it transitions onto. -/
theorem C9_update_frame (net : Network) (dt : ℝ) (rng : ℕ → ℕ) (net' : Network)
    (h : update net dt rng = some net') :
    net'.junctions = net.junctions ∧
    net'.stations = net.stations ∧
    net'.trains.length = net.trains.length ∧
    (∀ j : ℕ, (net'.trains[j]?).map Train.id = (net.trains[j]?).map Train.id) ∧
    net'.tracks.length = net.tracks.length ∧
    (∀ (t : ℕ) (tk : Track), net.tracks[t]? = some tk →
      ∃ (tk' : Track) (ap : List ℕ), net'.tracks[t]? = some tk' ∧
        tk'.id = tk.id ∧ tk'.source = tk.source ∧ tk'.destiation = tk.destiation ∧
        tk'.length = tk.length ∧ tk'.shape = tk.shape ∧
        tk'.trains = tk.trains ++ ap) ∧
    ((∀ (i : ℕ) (tr : Train) (tk : Track), net.trains[i]? = some tr →
        net.tracks[tr.track]? = some tk → ¬ tr.distance + dt * 8 > |tk.length|) →
      net'.tracks = net.tracks ∧
      net'.trains = net.trains.map
        (fun tr => { tr with distance := tr.distance + dt * 8 })) ∧
    ((∀ (t : ℕ) (tk : Track), net.tracks[t]? = some tk → tk.id = t) →
      ∀ (i : ℕ) (tr : Train) (tk : Track), net.trains[i]? = some tr →
        net.tracks[tr.track]? = some tk → tr.distance + dt * 8 > |tk.length| →
        ∃ tr' : Train, net'.trains[i]? = some tr' ∧ tr'.id = tr.id ∧
          ∃ tk' : Track, net'.tracks[tr'.track]? = some tk' ∧ tr.id ∈ tk'.trains) := by
  obtain ⟨j1, s1, tl1, ids1, un1, kl1, tks1⟩ :=
    update_fold_frame rng dt (List.range net.trains.length) net net' h
  refine ⟨j1, s1, tl1, ids1, kl1, tks1, ?_, ?_⟩
  · intro hnw
    have base := update_fold_nowrap rng dt net hnw net.trains.length 0 net net'
      (by rw [← List.range_eq_range']; exact h) rfl
      (fun j hj => absurd hj (Nat.not_lt_zero j)) (fun j _ => rfl)
    refine ⟨base.1, ?_⟩
    apply List.ext_getElem?
    intro j
    rw [List.getElem?_map]
    by_cases hj : j < net.trains.length
    · exact base.2.1 j (by omega)
    · rw [base.2.2 j (by omega), List.getElem?_eq_none (by omega)]
      rfl
  · intro hid i tr tk htr htk hw
    exact update_wrap_appends net dt rng net' h hid i tr tk htr htk hw

/-- The state of `c2_network` after `update(1.25)`. -/
def c2_network_after : Network :=
  { c2_network with trains := [{ id := 0, track := 0, distance := 10 }] }

/-- Witness for C9 on the concrete `c2_network` run: `update(1.25)` wraps no
train (the boundary is not strictly exceeded), so the tracks are exactly
unchanged and the single train just advances its distance. -/
theorem C9_update_frame_witness :
    c2_network_after.tracks = c2_network.tracks ∧
    c2_network_after.trains = c2_network.trains.map
      (fun tr => { tr with distance := tr.distance + 1.25 * 8 }) := by
  have hh := C9_update_frame c2_network 1.25 (fun _ => 0) c2_network_after (c2_eval (fun _ => 0))
  refine hh.2.2.2.2.2.2.1 ?_
  intro i tr tk htr htk
  match i with
  | 0 =>
      have h0 : c2_network.trains[0]? = some (Train.mk 0 0 0) := rfl
      rw [h0] at htr
      obtain rfl : Train.mk 0 0 0 = tr := Option.some.inj htr
      have h1 : c2_network.tracks[(Train.mk 0 0 (0 : ℝ)).track]? =
          some (Track.mk 0 0 1 [0] 10 (TrackShape.line ⟨0, 0⟩ ⟨1, 0⟩ 10)) := rfl
      rw [h1] at htk
      obtain rfl : Track.mk 0 0 1 [0] 10 (TrackShape.line ⟨0, 0⟩ ⟨1, 0⟩ 10) = tk :=
        Option.some.inj htk
      norm_num
  | Nat.succ n =>
      have h0 : c2_network.trains[n + 1]? = none := rfl
      rw [h0] at htr
      exact absurd htr (by simp)

end
